import Mathlib

/-!
# Verification of the pyXMIP match store, reduction pipeline and density engine

This file gives a shallow embedding, in Lean 4, of the parts of pyXMIP that the
specification's claims are about:

* the `META` ledger primitives of `CrossMatchDatabase`
  (`meta_add`, `meta_remove`, `check_meta`, `_check_meta_yield_database`),
* the chunked correction procedures `correct_coordinates`,
  `correct_column_names` and `correct_object_types` (their control flow over an
  explicit relational-store state, with an injectable failure point in the
  chunk loop),
* `add_catalog_from_table`,
* the fitting-strategy dispatch of `DensityModel`
  (`_get_opt_meths` and the strategy loop of `fit_to_population`) and the
  closed-form Poisson MLE of `UniformDensityModel._mle_analytical`,
* the ingestion loops of `SourceDatabase.source_match` (threaded and serial),
* `StatAtlas.build_poisson_map_MAP`, and
* the HEALPix pixel/position round trip used by `MapAtlas.pixel_positions` and
  `Map.__call__`.

Machine floats are idealised as `ℚ`; external collaborators (astropy coordinate
transforms, the remote query client, pandas dtype coercion) enter as explicit
parameters.  SQL statements are modelled as immediately durable state updates,
which is the execution model the specification itself describes for the
chunk-then-swap pattern.
-/

set_option maxRecDepth 10000

namespace PyXMIP

/-! ## The META ledger

A row of the `META` table is `(PROCESS, TABLE, DATE_RUN)`.  `meta_add` appends
one row (`pandas.DataFrame.to_sql(..., if_exists="append")`), `meta_remove`
keeps the rows selected by the pandas mask
`(meta["PROCESS"] != process) & (meta["TABLE"] != table)` and rewrites the
table, and `check_meta` tests whether the subframe selected by
`(meta["PROCESS"] == process) & (meta["TABLE"] == table)` is non-empty.
-/

/-- A row of the `META` ledger table: `(PROCESS, TABLE, DATE_RUN)`. -/
structure MetaRow where
  PROCESS : String
  TABLE : String
  DATE_RUN : String
deriving DecidableEq

/-- Embedding of `CrossMatchDatabase.meta_add`: append one `(process, table, date)`
row to the ledger. -/
def metaAdd (process table date : String) (meta : List MetaRow) : List MetaRow :=
  meta ++ [⟨process, table, date⟩]

/-- Embedding of `CrossMatchDatabase.meta_remove`: keep exactly the rows matched by
the pandas mask `(PROCESS != process) & (TABLE != table)` and rewrite `META`
with them. -/
def metaRemove (process table : String) (meta : List MetaRow) : List MetaRow :=
  meta.filter fun r => (r.PROCESS != process) && (r.TABLE != table)

/-- Embedding of `CrossMatchDatabase.check_meta`: the subframe selected by
`(PROCESS == process) & (TABLE == table)` has non-zero length. -/
def checkMeta (process table : String) (meta : List MetaRow) : Bool :=
  (meta.filter fun r => (r.PROCESS == process) && (r.TABLE == table)).length != 0

/-- Claim C10: `meta_remove(process, table)` keeps exactly the META rows whose
PROCESS differs from `process` AND whose TABLE differs from `table`; hence it
also deletes every row that merely shares the process name (recorded against
any other table) or merely shares the table name (recorded under any other
process), not just the exact pair. -/
theorem meta_remove_is_conjunctive_filter (process table : String)
    (meta : List MetaRow) (r : MetaRow) :
    (r ∈ metaRemove process table meta ↔
      r ∈ meta ∧ r.PROCESS ≠ process ∧ r.TABLE ≠ table)
    ∧ (r ∈ meta → r.PROCESS = process → r ∉ metaRemove process table meta)
    ∧ (r ∈ meta → r.TABLE = table → r ∉ metaRemove process table meta) := by
  have hmem : r ∈ metaRemove process table meta ↔
      r ∈ meta ∧ r.PROCESS ≠ process ∧ r.TABLE ≠ table := by
    simp [metaRemove, List.mem_filter, bne_iff_ne, and_assoc]
  refine ⟨hmem, ?_, ?_⟩
  · intro _ hp hr
    exact ((hmem.mp hr).2.1) hp
  · intro _ ht hr
    exact ((hmem.mp hr).2.2) ht

/-- Witness for C10: a ledger row `("CORRECT_COORDINATE_COLUMNS", "B_MATCH")` is
deleted by `meta_remove "CORRECT_COORDINATE_COLUMNS" "A_MATCH"` although its
TABLE differs, because it shares the process name. -/
theorem meta_remove_is_conjunctive_filter_witness :
    (⟨"CORRECT_COORDINATE_COLUMNS", "B_MATCH", "d"⟩ : MetaRow) ∉
      metaRemove "CORRECT_COORDINATE_COLUMNS" "A_MATCH"
        [⟨"CORRECT_COORDINATE_COLUMNS", "B_MATCH", "d"⟩] :=
  (meta_remove_is_conjunctive_filter "CORRECT_COORDINATE_COLUMNS" "A_MATCH"
      [⟨"CORRECT_COORDINATE_COLUMNS", "B_MATCH", "d"⟩]
      ⟨"CORRECT_COORDINATE_COLUMNS", "B_MATCH", "d"⟩).2.1
    (by decide) (by decide)

/-! ## DensityModel: fitting-strategy dispatch

`DensityModel._get_opt_meths` builds the list of applicable optimization
methods.  The "known information" list receives `"model_function"` when
`self.function is not None` and `"analytically_tractable"` when the class flag
`_class_analytically_tractable` is set; nothing else is ever appended (in
particular `"grad"` is never derived).  The method dictionary is filtered down
to the entries all of whose requirements appear in the known information, an
assertion fires if the filtered dictionary is empty, and the surviving names
are emitted grouped by ascending `level` (`np.arange(max_level + 1)`).
-/

/-- One entry of `class_optimization_approaches`: a priority `level` and a
`requires` list of capability names. -/
structure OptApproach where
  level : ℕ
  requires : List String
deriving DecidableEq

/-- The capability-relevant state of a `DensityModel`: whether `self.function`
is set, the class flag `_class_analytically_tractable`, and the ordered
`class_optimization_approaches` dictionary. -/
structure ModelCaps where
  hasFunction : Bool
  analyticallyTractable : Bool
  approaches : List (String × OptApproach)
deriving DecidableEq

/-- The `_known_information` list built at the top of `_get_opt_meths`. -/
def knownInformation (m : ModelCaps) : List String :=
  (if m.hasFunction then ["model_function"] else []) ++
    (if m.analyticallyTractable then ["analytically_tractable"] else [])

/-- The dictionary comprehension of `_get_opt_meths`: keep the approaches all of
whose requirements appear in the known information. -/
def availableMethods (m : ModelCaps) : List (String × OptApproach) :=
  m.approaches.filter fun mv => mv.2.requires.all fun r => (knownInformation m).contains r

/-- `np.amax` over the levels of a method list (with `0` for the empty list,
which the source never reaches because of its assertion). -/
def maxLevel (l : List (String × OptApproach)) : ℕ :=
  (l.map fun mv => mv.2.level).foldr max 0

/-- The level-ordered candidate traversal of `_get_opt_meths`: for each level
`l` in `np.arange(max_level + 1)`, the available methods whose level is `l`,
in dictionary order. -/
def candidateList (m : ModelCaps) : List (String × OptApproach) :=
  (List.range (maxLevel (availableMethods m) + 1)).flatMap fun l =>
    (availableMethods m).filter fun mv => mv.2.level == l

/-- Embedding of `DensityModel._get_opt_meths`: `none` models the
`AssertionError` raised when no available method is found; otherwise the
method names grouped by ascending level. -/
def getOptMeths (m : ModelCaps) : Option (List String) :=
  if (availableMethods m).length = 0 then none
  else some ((candidateList m).map Prod.fst)

/-- The `class_optimization_approaches` dictionary of the base `DensityModel`. -/
def densityModelApproaches : List (String × OptApproach) :=
  [("mle_analytical", ⟨0, ["model_function", "analytically_tractable"]⟩),
   ("mle_nonlin", ⟨1, ["model_function", "grad"]⟩)]

/-- The `class_optimization_approaches` dictionary of `UniformDensityModel`. -/
def uniformDensityModelApproaches : List (String × OptApproach) :=
  [("poisson_mle_analytical", ⟨0, ["model_function", "analytically_tractable"]⟩),
   ("poisson_mle_nonlin", ⟨1, ["model_function", "grad"]⟩)]

/-- Levels of available methods are bounded by `maxLevel`. -/
theorem level_le_maxLevel {l : List (String × OptApproach)}
    {mv : String × OptApproach} (h : mv ∈ l) : mv.2.level ≤ maxLevel l := by
  induction l with
  | nil => cases h
  | cons a t ih =>
    rcases List.mem_cons.mp h with rfl | h
    · simp [maxLevel, le_max_iff]
    · simp only [maxLevel, List.map_cons, List.foldr_cons, le_max_iff]
      exact Or.inr (ih h)

/-- Membership in the candidate list is exactly membership among the available
methods. -/
theorem mem_candidateList_iff (m : ModelCaps) (nv : String × OptApproach) :
    nv ∈ candidateList m ↔ nv ∈ availableMethods m := by
  constructor
  · intro h
    rcases List.mem_flatMap.mp h with ⟨l, _, hmem⟩
    exact (List.mem_filter.mp hmem).1
  · intro h
    refine List.mem_flatMap.mpr ⟨nv.2.level, ?_, ?_⟩
    · exact List.mem_range.mpr (Nat.lt_succ_of_le (level_le_maxLevel h))
    · exact List.mem_filter.mpr ⟨h, by simp⟩

/-- Counterexample for C5: a model whose function is set but which is not
analytically tractable (the code never derives a `"grad"` capability, and
`DensityModel.__init__` discards its `derivative_function` argument) does not
resolve to the nonlinear least-squares strategy; `_get_opt_meths` instead hits
its zero-candidate assertion. -/
theorem grad_capability_never_derived_counterexample :
    getOptMeths ⟨true, false, densityModelApproaches⟩ = none ∧
      getOptMeths ⟨true, false, densityModelApproaches⟩ ≠ some ["mle_nonlin"] := by
  constructor
  · rfl
  · intro h
    simp [getOptMeths, availableMethods, densityModelApproaches, knownInformation] at h

/-- Claim C5 (amended): the candidate list contains exactly the strategies whose
declared requirement set is fully contained in the model's derivable
capabilities — which are only `model_function` (when the function is set) and
`analytically_tractable` (when the class flag is set); candidates are ordered
by ascending priority level; a `{model_function, analytically_tractable}`
model resolves via the priority-0 closed-form strategy; a model lacking
analytic tractability hits the named zero-candidate assertion even though the
dictionary lists a `grad`-requiring nonlinear strategy, because `grad` is
never derived; and a model with neither capability hits the same assertion. -/
theorem strategy_dispatch_amended :
    (∀ (m : ModelCaps) (nv : String × OptApproach),
      nv ∈ availableMethods m ↔
        nv ∈ m.approaches ∧ ∀ r ∈ nv.2.requires, r ∈ knownInformation m)
    ∧ (∀ m : ModelCaps,
        (candidateList m).Pairwise fun a b => a.2.level ≤ b.2.level)
    ∧ (∀ (m : ModelCaps) (nv : String × OptApproach),
        nv ∈ candidateList m ↔ nv ∈ availableMethods m)
    ∧ getOptMeths ⟨true, true, uniformDensityModelApproaches⟩ =
        some ["poisson_mle_analytical"]
    ∧ getOptMeths ⟨true, false, densityModelApproaches⟩ = none
    ∧ getOptMeths ⟨false, false, densityModelApproaches⟩ = none := by
  refine ⟨?_, ?_, mem_candidateList_iff, by rfl, by rfl, by rfl⟩
  · intro m nv
    simp [availableMethods, List.mem_filter, List.all_eq_true]
  · intro m
    unfold candidateList
    rw [List.flatMap, List.pairwise_flatten]
    refine ⟨?_, ?_⟩
    · intro l hl
      rcases List.mem_map.mp hl with ⟨lvl, _, rfl⟩
      refine List.pairwise_of_forall_mem_list ?_
      intro a ha b hb
      have h1 : a.2.level = lvl := by simpa using (List.mem_filter.mp ha).2
      have h2 : b.2.level = lvl := by simpa using (List.mem_filter.mp hb).2
      omega
    · rw [List.pairwise_map]
      refine List.Pairwise.imp ?_ (List.pairwise_lt_range _)
      intro l₁ l₂ hlt a ha b hb
      have h1 : a.2.level = l₁ := by
        simpa using (List.mem_filter.mp ha).2
      have h2 : b.2.level = l₂ := by
        simpa using (List.mem_filter.mp hb).2
      omega

/-- Witness for C5 (amended): on the `UniformDensityModel` capability set, the
analytical strategy is an available method, recovered through the general
membership characterisation. -/
theorem strategy_dispatch_amended_witness :
    ("poisson_mle_analytical",
        (⟨0, ["model_function", "analytically_tractable"]⟩ : OptApproach)) ∈
      availableMethods ⟨true, true, uniformDensityModelApproaches⟩ :=
  (strategy_dispatch_amended.1 ⟨true, true, uniformDensityModelApproaches⟩
      ("poisson_mle_analytical", ⟨0, ["model_function", "analytically_tractable"]⟩)).mpr
    ⟨by decide, by decide⟩

/-! ## DensityModel: the strategy loop of fit_to_population

The loop over the resolved optimization methods is

    for _opt_meth in _opt_meths:
        status, data = _opt_meth(...)
        if status:
            data["method"] = _opt_meth.__name__
            continue
        opt_pbar.update(); mainlog.warning(...)
    assert status, "The optimization failed after exhausting available optimization schemes."

Every iteration overwrites `status, data`, and a successful iteration
`continue`s to the next method instead of leaving the loop, so the pair left
behind is always the one produced by the LAST candidate.  We embed the loop as
a fold over the per-method outcomes; an attempt is `(method_name, status,
data)`.  `none` as the loop state models `status`/`data` being unbound.
-/

/-- The strategy loop of `fit_to_population`: each iteration overwrites the
`(status, method-tag, data)` state; the tag is set only on success, and the
loop never exits early. -/
def strategyLoop {δ : Type} (attempts : List (String × Bool × δ)) :
    Option (Bool × Option String × δ) :=
  attempts.foldl
    (fun _ att => some (att.2.1, if att.2.1 then some att.1 else none, att.2.2))
    none

/-- Embedding of the tail of `fit_to_population`: after the loop the assertion
`assert status` fires when the surviving `status` is false (the error message
is the assertion's text); when no attempt ran at all, `status` is unbound. -/
def fitToPopulationOutcome {δ : Type} (attempts : List (String × Bool × δ)) :
    Except String (Option String × δ) :=
  match strategyLoop attempts with
  | none => .error "NameError: name status is not defined"
  | some (true, mname, d) => .ok (mname, d)
  | some (false, _, _) =>
      .error "The optimization failed after exhausting available optimization schemes."

/-- Claim C2 (code_bug evaluation): with two candidate strategies in priority
order where the FIRST succeeds and the second fails, the strategy loop still
raises the exhaustion assertion, because a successful iteration `continue`s to
the next strategy and only the last strategy's status survives; and when both
succeed, the returned record is the LAST strategy's, not the first's. -/
theorem fit_strategy_loop_failing_input :
    fitToPopulationOutcome
        [("poisson_mle_analytical", true, (1 : ℤ)), ("poisson_mle_nonlin", false, 0)] =
      .error "The optimization failed after exhausting available optimization schemes."
    ∧ fitToPopulationOutcome
        [("poisson_mle_analytical", true, (1 : ℤ)), ("poisson_mle_nonlin", true, 2)] =
      .ok (some "poisson_mle_nonlin", 2) := by
  constructor <;> rfl

/-! ## UniformDensityModel: closed-form Poisson MLE -/

/-- The fitted record returned by `UniformDensityModel._mle_analytical`:
`args = {"alpha": sum(counts)/sum(areas)}`,
`vargs = {"alpha": sum(counts)/sum(areas)**2}`, and the 1×1 covariance matrix
holding the same value. -/
structure UniformFitData where
  alpha : ℚ
  varAlpha : ℚ
  cov : List (List ℚ)
deriving DecidableEq

/-- Embedding of `UniformDensityModel._mle_analytical` (counts and areas in
steradians as rationals); the leading `true` is the returned status flag. -/
def uniformMleAnalytical (counts areas : List ℚ) : Bool × UniformFitData :=
  (true,
    ⟨counts.sum / areas.sum,
     counts.sum / areas.sum ^ 2,
     [[counts.sum / areas.sum ^ 2]]⟩)

/-- Counterexample for C4: on `counts = [10,10,10]`, `areas = [1,1,1]` the
analytical fit's variance is `30/9 = 10/3`, not the claimed `10/9`. -/
theorem uniform_mle_variance_counterexample :
    (uniformMleAnalytical [10, 10, 10] [1, 1, 1]).2.varAlpha = 10 / 3 ∧
      (10 / 3 : ℚ) ≠ 10 / 9 := by
  constructor
  · norm_num [uniformMleAnalytical]
  · norm_num

/-- Claim C4 (amended): for `counts = [10,10,10]` and `areas = [1,1,1]`
steradian, the global-uniform closed-form Poisson MLE returns
`alpha = sum(counts)/sum(areas) = 10` and variance
`sum(counts)/sum(areas)^2 = 10/3` (also broadcast as the 1×1 covariance). -/
theorem uniform_mle_analytical_amended :
    (uniformMleAnalytical [10, 10, 10] [1, 1, 1]).2.alpha = 10 ∧
      (uniformMleAnalytical [10, 10, 10] [1, 1, 1]).2.varAlpha = 10 / 3 ∧
      (uniformMleAnalytical [10, 10, 10] [1, 1, 1]).2.cov = [[10 / 3]] := by
  refine ⟨?_, ?_, ?_⟩ <;> norm_num [uniformMleAnalytical]

/-! ## SourceDatabase.source_match: ingestion loops

In the serial (`threading=False`) loop the body is

    try:
        query = cls._query_radius_uncorrected(_position, _radius)
    except Exception as exception:
        mainlog.error(exception.__repr__())
    query["CATALOG_OBJECT"] = ...; query["CATALOG_RA"] = ...; ...
    query.append_to_sql(f"{cls.__name__}_MATCH", engine)

— there is no `continue` in the handler, so after a failed query the loop
falls through and re-tags whatever `query` held from the previous iteration
(or raises `NameError` when the first query fails).  The threaded worker
`_source_match_multithreaded` has the same body but with `continue` in the
handler, so there a failed row really is dropped.  A batch row is modelled as
`(entry, outcome)` where `outcome` is the remote client's result: `.ok rows`
or `.error ()` for a raised connection error.
-/

/-- Serial ingestion loop body of `source_match` (`threading=False`): the
`query` variable survives a failed iteration, so the failed row falls through
and appends the previous row's results tagged with its own identity; a failure
on the very first row leaves `query` unbound. -/
def sourceMatchSerialAux {σ ρ : Type} :
    List (σ × Except Unit (List ρ)) → Option (List ρ) → List (σ × ρ) →
      Except String (List (σ × ρ))
  | [], _, acc => .ok acc
  | (entry, outcome) :: rest, lastQuery, acc =>
    let q : Option (List ρ) :=
      match outcome with
      | .ok rows => some rows
      | .error _ => lastQuery
    match q with
    | none => .error "NameError: name query is not defined"
    | some rows =>
        sourceMatchSerialAux rest (some rows) (acc ++ rows.map fun r => (entry, r))

/-- Embedding of the serial path of `SourceDatabase.source_match`. -/
def sourceMatchSerial {σ ρ : Type} (batch : List (σ × Except Unit (List ρ))) :
    Except String (List (σ × ρ)) :=
  sourceMatchSerialAux batch none []

/-- Embedding of one worker chunk of `_source_match_multithreaded`: the handler
`continue`s, so a failed row contributes nothing and the loop proceeds. -/
def sourceMatchThreadedChunk {σ ρ : Type}
    (batch : List (σ × Except Unit (List ρ))) : List (σ × ρ) :=
  batch.foldl
    (fun acc er =>
      match er.2 with
      | .error _ => acc
      | .ok qrows => acc ++ qrows.map fun r => (er.1, r))
    []

/-- Claim C6 (code_bug evaluation): on the serial path a failed second row is
NOT dropped — it appends the first row's query results re-tagged with the
failed row's identity — and a failed first row aborts the whole batch with a
`NameError`; only the threaded worker actually drops the failed row and
continues. -/
theorem source_match_failed_row_evaluation :
    sourceMatchSerial [((0 : ℕ), Except.ok [(100 : ℕ)]), (1, Except.error ())] =
      Except.ok [(0, 100), (1, 100)]
    ∧ sourceMatchSerial [((0 : ℕ), (Except.error () : Except Unit (List ℕ)))] =
      Except.error "NameError: name query is not defined"
    ∧ sourceMatchThreadedChunk [((0 : ℕ), Except.ok [(100 : ℕ)]), (1, Except.error ())] =
      [(0, 100)] := by
  refine ⟨rfl, rfl, rfl⟩

/-! ## The relational store and the chunked corrections

A stored table is a column list plus a row list (rows of type `ρ`; the astropy
and pandas row transforms enter as explicit functions `List ρ → List ρ`).  The
store holds named tables plus the META ledger.  Each executed SQL statement
(`to_sql`, `DROP TABLE`, `ALTER TABLE ... RENAME`) is modelled as an
immediately durable state update, which is the execution model the
specification describes for the chunk-then-swap pattern.
-/

/-- A stored table: its column names and its rows. -/
structure Tbl (ρ : Type) where
  cols : List String
  rows : List ρ
deriving DecidableEq

/-- The relational store: named tables plus the `META` ledger. -/
structure Store (ρ : Type) where
  tables : List (String × Tbl ρ)
  meta : List MetaRow
deriving DecidableEq

/-- Reading a table (`pd.read_sql_table`); `none` when the table is absent. -/
def getTable {ρ : Type} (s : Store ρ) (name : String) : Option (Tbl ρ) :=
  s.tables.lookup name

/-- Whether `"CATALOG"` is among the store's tables (`has_catalog`). -/
def hasCatalog {ρ : Type} (s : Store ρ) : Bool :=
  (getTable s "CATALOG").isSome

/-- Writing a table with `if_exists="replace"`: any table of that name is
dropped and the new one is written. -/
def setTable {ρ : Type} (s : Store ρ) (name : String) (t : Tbl ρ) : Store ρ :=
  { s with tables := (s.tables.filter fun nt => nt.1 != name) ++ [(name, t)] }

/-- Writing rows with `if_exists="append"`: appended to the existing table, or
a fresh table when none exists. -/
def appendTable {ρ : Type} (s : Store ρ) (name : String) (t : Tbl ρ) : Store ρ :=
  match getTable s name with
  | some old => setTable s name ⟨old.cols, old.rows ++ t.rows⟩
  | none => setTable s name t

/-- `DROP TABLE name`. -/
def dropTable {ρ : Type} (s : Store ρ) (name : String) : Store ρ :=
  { s with tables := s.tables.filter fun nt => nt.1 != name }

/-- `ALTER TABLE old RENAME TO new`. -/
def renameTable {ρ : Type} (s : Store ρ) (old new : String) : Store ρ :=
  { s with tables := s.tables.map fun nt => if nt.1 == old then (new, nt.2) else nt }

/-- Updating a table in place (used for column renames, which keep the table's
position). -/
def updateTable {ρ : Type} (s : Store ρ) (name : String) (t : Tbl ρ) : Store ρ :=
  { s with tables := s.tables.map fun nt => if nt.1 == name then (name, t) else nt }

/-- `CrossMatchDatabase.meta_add` acting on the store. -/
def metaAddStore {ρ : Type} (s : Store ρ) (process table date : String) : Store ρ :=
  { s with meta := metaAdd process table date s.meta }

/-- Python `str.replace(pat, rep)` on character lists, fuelled by the input
length so that the definition is structural (each step consumes at least one
character when the pattern is non-empty). -/
def replaceAux (pat rep : List Char) : ℕ → List Char → List Char
  | _, [] => []
  | 0, s => s
  | fuel + 1, c :: cs =>
    if pat ≠ [] ∧ pat.isPrefixOf (c :: cs) then
      rep ++ replaceAux pat rep fuel ((c :: cs).drop pat.length)
    else
      c :: replaceAux pat rep fuel cs

/-- Python `str.replace` (for the non-empty patterns the source uses). -/
def pyReplace (s pat rep : String) : String :=
  ⟨replaceAux pat.data rep.data s.data.length s.data⟩

/-- The registry entry (`database` with its `query_schema`) that the
corrections consult: its `name`, the keys of `query_schema.column_map`, and
the schema's `NAME` and `TYPE` directives. -/
structure DBEntry where
  name : String
  columnMap : List String
  NAME : String
  TYPE : Option String
deriving DecidableEq

/-- Embedding of `CrossMatchDatabase._check_meta_yield_database`: skip
(`none`) when the META ledger already records `(process_flag, table)` and
`overwrite` is off; otherwise look the table's database up in the registry
(the key is the table name with `"_MATCH"` removed), and skip when that lookup
fails. -/
def checkMetaYieldDatabase (processFlag table : String)
    (registry : List (String × DBEntry)) (overwrite : Bool)
    (meta : List MetaRow) : Option DBEntry :=
  if checkMeta processFlag table meta && !overwrite then none
  else registry.lookup (pyReplace table "_MATCH" "")

/-- Splitting a row list into consecutive windows of `n` rows
(`pd.read_sql_table(..., chunksize=n)`); the source only uses positive `n`. -/
def chunksOf {ρ : Type} (n : ℕ) : (l : List ρ) → List (List ρ)
  | [] => []
  | c :: cs =>
    if _h : n = 0 then []
    else (c :: cs).take n :: chunksOf n ((c :: cs).drop n)
termination_by l => l.length
decreasing_by
  simp only [List.length_drop, List.length_cons]
  omega

/-- Adding a pandas column assignment: appends the column name when new. -/
def addCol (cols : List String) (c : String) : List String :=
  if c ∈ cols then cols else cols ++ [c]

/-- Outcome of running one correction on one table: `ok` with the resulting
store, or `raised` with the store state at the moment an exception escaped. -/
inductive RunResult (ρ : Type) where
  | ok (s : Store ρ)
  | raised (s : Store ρ)
deriving DecidableEq

/-- The chunk loop of `correct_coordinates`: each window is converted and
written to `table + "_TMP"` (`replace` for the first window, `append`
afterwards).  Processing window `val` raises when `failAt = some val`,
modelling an injected mid-loop failure.  The `DROP`-then-`RENAME` swap is not
part of this loop — it happens afterwards. -/
def coordChunkLoop {ρ : Type} (table : String) (colsAfter : List String)
    (convert : List ρ → List ρ) (failAt : Option ℕ) :
    List (List ρ) → ℕ → Store ρ → RunResult ρ
  | [], _, s => .ok s
  | chunk :: rest, val, s =>
    if failAt = some val then .raised s
    else
      let s' :=
        if val = 0 then setTable s (table ++ "_TMP") ⟨colsAfter, convert chunk⟩
        else appendTable s (table ++ "_TMP") ⟨colsAfter, convert chunk⟩
      coordChunkLoop table colsAfter convert failAt rest (val + 1) s'

/-- Embedding of the per-table body of `CrossMatchDatabase.correct_coordinates`:
the META/registry gate, the early `meta_add`-and-continue when the schema
already maps `RA` and `DEC`, the chunked conversion into `table + "_TMP"`
(`convert` stands for the astropy frame transform of one window, which also
assigns `RA` and `DEC` columns), then `DROP TABLE table`,
`ALTER TABLE table_TMP RENAME TO table`, and finally `meta_add`. -/
def correctCoordinatesTable {ρ : Type} (registry : List (String × DBEntry))
    (convert : List ρ → List ρ) (chunksize : ℕ) (date : String)
    (overwrite : Bool) (failAt : Option ℕ) (table : String) (s : Store ρ) :
    RunResult ρ :=
  match checkMetaYieldDatabase "CORRECT_COORDINATE_COLUMNS" table registry
      overwrite s.meta with
  | none => .ok s
  | some db =>
    if "RA" ∈ db.columnMap ∧ "DEC" ∈ db.columnMap then
      .ok (metaAddStore s "CORRECT_COORDINATE_COLUMNS" table date)
    else
      let orig := (getTable s table).getD ⟨[], []⟩
      match coordChunkLoop table (addCol (addCol orig.cols "RA") "DEC") convert
          failAt (chunksOf chunksize orig.rows) 0 s with
      | .raised s' => .raised s'
      | .ok s' =>
        .ok (metaAddStore
          (renameTable (dropTable s' table) (table ++ "_TMP") table)
          "CORRECT_COORDINATE_COLUMNS" table date)

/-- The chunk loop of `correct_object_types`.  In the source the
`DROP TABLE table` / `ALTER TABLE table_TMP RENAME TO table` statements are
indented INSIDE the window loop, so each iteration writes the converted window
to `table + "_TMP"`, drops the live table and renames `_TMP` into its place.
(The converted windows are those of the original rows; only windows processed
before the first swap are relevant to the failure theorems below.) -/
def objectTypesChunkLoop {ρ : Type} (table : String) (cols : List String)
    (convertTypes : List ρ → List ρ) (failAt : Option ℕ) :
    List (List ρ) → ℕ → Store ρ → RunResult ρ
  | [], _, s => .ok s
  | chunk :: rest, val, s =>
    if failAt = some val then .raised s
    else
      let s1 :=
        if val = 0 then setTable s (table ++ "_TMP") ⟨cols, convertTypes chunk⟩
        else appendTable s (table ++ "_TMP") ⟨cols, convertTypes chunk⟩
      let s2 := renameTable (dropTable s1 table) (table ++ "_TMP") table
      objectTypesChunkLoop table cols convertTypes failAt rest (val + 1) s2

/-- Embedding of the per-table body of
`CrossMatchDatabase.correct_object_types`: the META/registry gate, the
schema-`TYPE` check (log-and-continue when absent), the chunk loop above with
its in-loop swap (chunk size hard-coded to 10000 in the source;
`convertTypes` stands for `SourceTable._convert_types` on one window), and
`meta_add` after the loop. -/
def correctObjectTypesTable {ρ : Type} (registry : List (String × DBEntry))
    (convertTypes : List ρ → List ρ) (date : String) (overwrite : Bool)
    (failAt : Option ℕ) (table : String) (s : Store ρ) : RunResult ρ :=
  match checkMetaYieldDatabase "CORRECT_OBJECT_TYPES" table registry
      overwrite s.meta with
  | none => .ok s
  | some db =>
    match db.TYPE with
    | none => .ok s
    | some _ =>
      let orig := (getTable s table).getD ⟨[], []⟩
      match objectTypesChunkLoop table orig.cols convertTypes failAt
          (chunksOf 10000 orig.rows) 0 s with
      | .raised s' => .raised s'
      | .ok s' => .ok (metaAddStore s' "CORRECT_OBJECT_TYPES" table date)

/-- One `ALTER TABLE target RENAME v TO k` statement: raises (`none`) when the
target table or the source column is absent. -/
def renameColumnStore {ρ : Type} (s : Store ρ) (target old new : String) :
    Option (Store ρ) :=
  match getTable s target with
  | none => none
  | some t =>
    if old ∈ t.cols then
      some (updateTable s target
        ⟨t.cols.map fun c => if c = old then new else c, t.rows⟩)
    else none

/-- The rename loop of `correct_column_names`: the four statements run in
order; a failing statement raises and the earlier renames remain applied. -/
def columnRenameLoop {ρ : Type} (target : String) :
    List (String × String) → Store ρ → RunResult ρ
  | [], s => .ok s
  | (k, v) :: rest, s =>
    match renameColumnStore s target v k with
    | none => .raised s
    | some s' => columnRenameLoop target rest s'

/-- Embedding of the per-table body of
`CrossMatchDatabase.correct_column_names`: the META/registry gate, then four
in-place `ALTER TABLE '{database.name}_MATCH' RENAME '{v}' to '{k}'`
statements taken from
`{"RA": "RA", "DEC": "DEC", "NAME": schema.NAME, "TYPE": schema.TYPE}` (a
`None` schema TYPE renders as the literal `'None'`), and `meta_add`.  There is
no chunking and no `_TMP` staging table on this path. -/
def correctColumnNamesTable {ρ : Type} (registry : List (String × DBEntry))
    (date : String) (overwrite : Bool) (table : String) (s : Store ρ) :
    RunResult ρ :=
  match checkMetaYieldDatabase "CORRECT_COLUMN_NAMES" table registry
      overwrite s.meta with
  | none => .ok s
  | some db =>
    match columnRenameLoop (db.name ++ "_MATCH")
        [("RA", "RA"), ("DEC", "DEC"), ("NAME", db.NAME),
         ("TYPE", db.TYPE.getD "None")] s with
    | .raised s' => .raised s'
    | .ok s' => .ok (metaAddStore s' "CORRECT_COLUMN_NAMES" table date)

/-- Claim C3: when the META ledger already records `(process, table)` and
`overwrite = False`, re-running the correction on that table is a non-error
no-op: `_check_meta_yield_database` yields the skip signal and each of the
three corrections returns with the store — tables and ledger — unchanged,
regardless of where a failure would have been injected; hence running the
same reduction twice leaves the MATCH table unchanged. -/
theorem rerun_with_meta_row_is_noop {ρ : Type} (s : Store ρ)
    (registry : List (String × DBEntry)) (convert convertTypes : List ρ → List ρ)
    (chunksize : ℕ) (date : String) (failAt : Option ℕ) (table : String) :
    (∀ flag : String, checkMeta flag table s.meta = true →
      checkMetaYieldDatabase flag table registry false s.meta = none)
    ∧ (checkMeta "CORRECT_COORDINATE_COLUMNS" table s.meta = true →
        correctCoordinatesTable registry convert chunksize date false failAt
          table s = .ok s)
    ∧ (checkMeta "CORRECT_OBJECT_TYPES" table s.meta = true →
        correctObjectTypesTable registry convertTypes date false failAt
          table s = .ok s)
    ∧ (checkMeta "CORRECT_COLUMN_NAMES" table s.meta = true →
        correctColumnNamesTable registry date false table s = .ok s) := by
  have hgate : ∀ flag : String, checkMeta flag table s.meta = true →
      checkMetaYieldDatabase flag table registry false s.meta = none := by
    intro flag h
    simp [checkMetaYieldDatabase, h]
  refine ⟨hgate, ?_, ?_, ?_⟩
  · intro h
    simp [correctCoordinatesTable, hgate _ h]
  · intro h
    simp [correctObjectTypesTable, hgate _ h]
  · intro h
    simp [correctColumnNamesTable, hgate _ h]

/-- Witness for C3: a store whose ledger already records all three correction
processes for `SIMBAD_MATCH` is returned unchanged by a re-run of
`correct_coordinates` with `overwrite=False`. -/
theorem rerun_with_meta_row_is_noop_witness :
    correctCoordinatesTable (ρ := ℕ) [] id 10000 "d" false none "SIMBAD_MATCH"
        ⟨[("SIMBAD_MATCH", ⟨["RA"], [5]⟩)],
         [⟨"CORRECT_COORDINATE_COLUMNS", "SIMBAD_MATCH", "d0"⟩]⟩ =
      .ok ⟨[("SIMBAD_MATCH", ⟨["RA"], [5]⟩)],
           [⟨"CORRECT_COORDINATE_COLUMNS", "SIMBAD_MATCH", "d0"⟩]⟩ :=
  (rerun_with_meta_row_is_noop
      ⟨[("SIMBAD_MATCH", ⟨["RA"], [5]⟩)],
       [⟨"CORRECT_COORDINATE_COLUMNS", "SIMBAD_MATCH", "d0"⟩]⟩
      [] id id 10000 "d" none "SIMBAD_MATCH").2.1 (by decide)

/-- Splitting a list whose head segment has exactly the window length peels off
that segment as the first window. -/
theorem chunksOf_append {ρ : Type} (n : ℕ) (c0 c1 : List ρ)
    (h : c0.length = n) (hn : 0 < n) :
    chunksOf n (c0 ++ c1) = c0 :: chunksOf n c1 := by
  cases c0 with
  | nil => simp at h; omega
  | cons x xs =>
    rw [List.cons_append, chunksOf]
    have hn' : ¬ n = 0 := by omega
    rw [dif_neg hn']
    rw [← List.cons_append]
    rw [List.take_left' h, List.drop_left' h]

/-- A non-empty row list yields at least one window. -/
theorem chunksOf_ne_nil {ρ : Type} {n : ℕ} {l : List ρ}
    (hl : l ≠ []) (hn : 0 < n) : chunksOf n l ≠ [] := by
  cases l with
  | nil => exact absurd rfl hl
  | cons x xs =>
    rw [chunksOf]
    have hn' : ¬ n = 0 := by omega
    rw [dif_neg hn']
    exact List.cons_ne_nil _ _

/-- Claim C1 (code_bug evaluation): running `correct_object_types` on a MATCH
table of more than one window (here: rows `c0 ++ c1` with `c0` a full
10000-row window) with a failure injected while processing the second window
leaves the store in a state where the original table has already been REPLACED
by the converted first window — the pre-call contents are no longer queryable
— although no META row was added.  This is because the source indents the
`DROP TABLE` / `RENAME` swap inside the chunk loop; the sibling
`correct_coordinates` swaps only after the loop. -/
theorem correct_object_types_midloop_failure {ρ : Type}
    (conv : List ρ → List ρ) (cols : List String) (c0 c1 : List ρ)
    (meta : List MetaRow) (registry : List (String × DBEntry)) (db : DBEntry)
    (ty date : String) (hc0 : c0.length = 10000) (hc1 : c1 ≠ [])
    (hreg : registry.lookup "SIMBAD" = some db) (hTY : db.TYPE = some ty)
    (hmeta : checkMeta "CORRECT_OBJECT_TYPES" "SIMBAD_MATCH" meta = false) :
    correctObjectTypesTable registry conv date false (some 1) "SIMBAD_MATCH"
        ⟨[("SIMBAD_MATCH", ⟨cols, c0 ++ c1⟩)], meta⟩ =
      .raised ⟨[("SIMBAD_MATCH", ⟨cols, conv c0⟩)], meta⟩
    ∧ (conv c0 ≠ c0 ++ c1 →
        getTable (⟨[("SIMBAD_MATCH", ⟨cols, conv c0⟩)], meta⟩ : Store ρ)
            "SIMBAD_MATCH" ≠ some ⟨cols, c0 ++ c1⟩) := by
  obtain ⟨d0, ds, hch⟩ :=
    List.exists_cons_of_ne_nil (chunksOf_ne_nil (n := 10000) hc1 (by norm_num))
  have hrep : pyReplace "SIMBAD_MATCH" "_MATCH" "" = "SIMBAD" := by decide
  have htmp : ("SIMBAD_MATCH" ++ "_TMP" : String) = "SIMBAD_MATCH_TMP" := rfl
  constructor
  · unfold correctObjectTypesTable
    rw [checkMetaYieldDatabase, hmeta]
    simp only [Bool.false_and, reduceIte, hrep, hreg, hTY]
    simp only [Bool.false_eq_true, if_false, getTable, List.lookup,
      beq_self_eq_true, Option.getD_some]
    rw [chunksOf_append 10000 c0 c1 hc0 (by norm_num), hch]
    rw [objectTypesChunkLoop, hTY]
    simp only [Option.some.injEq, one_ne_zero, if_false, if_pos rfl, reduceIte]
    rw [objectTypesChunkLoop]
    simp only [reduceIte]
    simp [setTable, dropTable, renameTable, appendTable, getTable, htmp]
  · intro hne hcontra
    rw [getTable] at hcontra
    simp only [List.lookup, beq_self_eq_true, if_true, Option.some.injEq,
      Tbl.mk.injEq] at hcontra
    exact hne hcontra.2

/-- Witness for C1: concrete instantiation with a 10001-row table, the identity
window transform and a one-entry registry. -/
theorem correct_object_types_midloop_failure_witness :
    correctObjectTypesTable [("SIMBAD", ⟨"SIMBAD", [], "NAME", some "TYPE"⟩)]
        (id : List ℕ → List ℕ) "d" false (some 1) "SIMBAD_MATCH"
        ⟨[("SIMBAD_MATCH", ⟨["TYPE"], List.replicate 10000 0 ++ [1]⟩)], []⟩ =
      .raised ⟨[("SIMBAD_MATCH", ⟨["TYPE"], id (List.replicate 10000 0)⟩)], []⟩
    ∧ (id (List.replicate 10000 (0 : ℕ)) ≠ List.replicate 10000 0 ++ [1] →
        getTable (⟨[("SIMBAD_MATCH", ⟨["TYPE"], id (List.replicate 10000 0)⟩)],
            []⟩ : Store ℕ) "SIMBAD_MATCH" ≠
          some ⟨["TYPE"], List.replicate 10000 0 ++ [1]⟩) :=
  correct_object_types_midloop_failure id ["TYPE"] (List.replicate 10000 0) [1]
    [] [("SIMBAD", ⟨"SIMBAD", [], "NAME", some "TYPE"⟩)]
    ⟨"SIMBAD", [], "NAME", some "TYPE"⟩ "TYPE" "d"
    (by rw [List.length_replicate]) (by decide) (by decide) (by decide) (by decide)

/-! ## add_catalog_from_table -/

/-- Outcome of `CrossMatchDatabase.add_catalog_from_table`: the failed
`assert schema.NAME is not None`, a `KeyError` from renaming a missing name
column, the logged skip (`mainlog.error(...); return None`) with the store
untouched, or a completed write. -/
inductive AddCatalogOutcome (ρ : Type) where
  | assertionError
  | keyError
  | skipped (s : Store ρ)
  | written (s : Store ρ)
deriving DecidableEq

/-- Embedding of `CrossMatchDatabase.add_catalog_from_table`: assert the schema
has a NAME directive; rename that column to `CATALOG_OBJECT` and drop the
`ignore_columns` (both act on the in-memory table, before any store access);
when CATALOG already exists and `overwrite` is off, log an error and return
(`skipped`) — no exception, no store change; otherwise write CATALOG with
`if_exists="replace"` and append the META row `("CATALOG_INCLUDED", "all")`.
The pandas dtype coercion of object columns does not change the embedding's
opaque rows. -/
def addCatalogFromTable {ρ : Type} (catalog : Tbl ρ) (schemaNAME : Option String)
    (ignoreColumns : List String) (overwrite : Bool) (date : String)
    (s : Store ρ) : AddCatalogOutcome ρ :=
  match schemaNAME with
  | none => .assertionError
  | some nm =>
    if nm ∈ catalog.cols then
      let renamed : Tbl ρ :=
        ⟨catalog.cols.map fun c => if c = nm then "CATALOG_OBJECT" else c,
         catalog.rows⟩
      let pruned : Tbl ρ :=
        ⟨renamed.cols.filter fun c => !ignoreColumns.contains c, renamed.rows⟩
      if hasCatalog s && !overwrite then .skipped s
      else
        .written (metaAddStore (setTable s "CATALOG" pruned)
          "CATALOG_INCLUDED" "all" date)
    else .keyError

/-- Counterexample for C7: with a CATALOG table already present and
`overwrite=False`, `add_catalog_from_table` does not fail with a fatal
precondition error — it logs and returns, yielding the `skipped` outcome that
carries the store unchanged. -/
theorem add_catalog_existing_not_fatal_counterexample :
    addCatalogFromTable (ρ := ℕ) ⟨["NAME", "RA"], []⟩ (some "NAME") [] false "d"
        ⟨[("CATALOG", ⟨["CATALOG_OBJECT"], []⟩)], []⟩ =
      .skipped ⟨[("CATALOG", ⟨["CATALOG_OBJECT"], []⟩)], []⟩
    ∧ AddCatalogOutcome.skipped (ρ := ℕ)
        ⟨[("CATALOG", ⟨["CATALOG_OBJECT"], []⟩)], []⟩ ≠ .assertionError := by
  exact ⟨rfl, by decide⟩

/-- Lookup after a replace-write finds the written table. -/
theorem lookup_filter_append {ρ : Type} (l : List (String × Tbl ρ))
    (n : String) (t : Tbl ρ) :
    ((l.filter fun nt => nt.1 != n) ++ [(n, t)]).lookup n = some t := by
  induction l with
  | nil => simp [List.lookup]
  | cons a rest ih =>
    by_cases h : a.1 = n
    · simpa [List.filter_cons, h] using ih
    · have hbeq : (n == a.1) = false := beq_eq_false_iff_ne.mpr (Ne.symm h)
      have hbne : (a.1 != n) = true := by simp [bne_iff_ne, h]
      simp [List.filter_cons, hbne, List.lookup, hbeq, ih]

/-- Reading back the table just written by `setTable`. -/
theorem getTable_setTable_self {ρ : Type} (s : Store ρ) (n : String) (t : Tbl ρ) :
    getTable (setTable s n t) n = some t :=
  lookup_filter_append s.tables n t

/-- Claim C7 (amended): a missing schema NAME directive is a fatal assertion;
when CATALOG already exists and `overwrite=False` the call is a logged skip
that returns with the store unchanged (not a raised error) and commits
nothing; otherwise the designated name column is renamed to `CATALOG_OBJECT`,
CATALOG is written, and a META row `("CATALOG_INCLUDED", "all")` is appended;
renaming a name column absent from the table is a raised `KeyError`. -/
theorem add_catalog_from_table_amended {ρ : Type} (catalog : Tbl ρ)
    (nm date : String) (ignore : List String) (overwrite : Bool) (s : Store ρ) :
    (addCatalogFromTable catalog none ignore overwrite date s = .assertionError)
    ∧ (nm ∈ catalog.cols → hasCatalog s = true →
        addCatalogFromTable catalog (some nm) ignore false date s = .skipped s)
    ∧ (nm ∈ catalog.cols → (hasCatalog s = false ∨ overwrite = true) →
        addCatalogFromTable catalog (some nm) ignore overwrite date s =
          .written (metaAddStore (setTable s "CATALOG"
            ⟨(catalog.cols.map fun c => if c = nm then "CATALOG_OBJECT" else c).filter
                fun c => !ignore.contains c,
             catalog.rows⟩) "CATALOG_INCLUDED" "all" date)
        ∧ getTable (metaAddStore (setTable s "CATALOG"
            ⟨(catalog.cols.map fun c => if c = nm then "CATALOG_OBJECT" else c).filter
                fun c => !ignore.contains c,
             catalog.rows⟩) "CATALOG_INCLUDED" "all" date) "CATALOG" =
          some ⟨(catalog.cols.map fun c => if c = nm then "CATALOG_OBJECT" else c).filter
              fun c => !ignore.contains c,
            catalog.rows⟩
        ∧ (metaAddStore (setTable s "CATALOG"
            ⟨(catalog.cols.map fun c => if c = nm then "CATALOG_OBJECT" else c).filter
                fun c => !ignore.contains c,
             catalog.rows⟩) "CATALOG_INCLUDED" "all" date).meta =
          s.meta ++ [⟨"CATALOG_INCLUDED", "all", date⟩])
    ∧ (nm ∉ catalog.cols →
        addCatalogFromTable catalog (some nm) ignore overwrite date s = .keyError) := by
  refine ⟨rfl, ?_, ?_, ?_⟩
  · intro hmem hcat
    simp [addCatalogFromTable, hmem, hcat]
  · intro hmem hover
    refine ⟨?_, getTable_setTable_self _ _ _, rfl⟩
    rcases hover with hcat | hov
    · simp [addCatalogFromTable, hmem, hcat]
    · simp [addCatalogFromTable, hmem, hov]
  · intro hmem
    simp [addCatalogFromTable, hmem]

/-- Witness for C7 (amended): the skip branch at a concrete store that already
has a CATALOG table. -/
theorem add_catalog_from_table_amended_witness :
    addCatalogFromTable (ρ := ℕ) ⟨["NAME"], []⟩ (some "NAME") [] false "d"
        ⟨[("CATALOG", ⟨["CATALOG_OBJECT"], []⟩)], []⟩ =
      .skipped ⟨[("CATALOG", ⟨["CATALOG_OBJECT"], []⟩)], []⟩ :=
  (add_catalog_from_table_amended ⟨["NAME"], []⟩ "NAME" "d" [] false
      ⟨[("CATALOG", ⟨["CATALOG_OBJECT"], []⟩)], []⟩).2.1 (by decide) (by decide)

/-! ## StatAtlas.build_poisson_map_MAP

The per-pixel (local-uniform / MAP) estimator initialises the output array
with `np.zeros(self.NPIX)`, computes the list of pixel ids that occur among
the persisted count samples, and for each such pixel overwrites the entry with
`sum(counts) / sum(pi * r_rad**2)` over the samples of that pixel.  Pixels
without samples therefore keep the defined value `0`; nothing ever writes a
NaN and the method accepts no fallback-policy argument (its only recognised
keyword is `progress_bar`).  A map cell is modelled as either a defined
rational or an undefined NaN marker so that the distinction the claim draws is
expressible; `np.pi` is idealised as a rational parameter `pi` (the refuted
statement does not depend on its value). -/

/-- A density-map cell: a defined numeric value or the undefined NaN marker. -/
inductive MapVal where
  | val (q : ℚ)
  | nan
deriving DecidableEq

/-- One record of the persisted COUNTS table after `get_points` assigned its
HEALPix pixel: the pixel id, the object-type count, and the sampled radius in
arcminutes. -/
structure CountSample where
  pixId : ℕ
  count : ℚ
  rad : ℚ
deriving DecidableEq

/-- The sampled solid angle of one count sample:
`np.pi * ((r * units.arcmin).to_value("rad")) ** 2`, with the exact
arcmin-to-radian factor `pi / 10800`. -/
def sampleArea (pi r : ℚ) : ℚ :=
  pi * (r * (pi / 10800)) ^ 2

/-- The `_non_empty_pix_ids` comprehension: the pixel ids of `np.arange(NPIX)`
that occur among the samples' `PIX_ID` values. -/
def nonEmptyPixIds (npix : ℕ) (points : List CountSample) : List ℕ :=
  (List.range npix).filter fun pid => points.any fun p => p.pixId == pid

/-- Numpy array element assignment `arr[i] = v`. -/
def listSet : List MapVal → ℕ → MapVal → List MapVal
  | [], _, _ => []
  | _ :: xs, 0, v => v :: xs
  | x :: xs, n + 1, v => x :: listSet xs n v

/-- The per-pixel estimate written inside the loop of `build_poisson_map_MAP`:
`_c / np.sum(_a)` over the samples assigned to the pixel. -/
def pixelDensityMAP (pi : ℚ) (points : List CountSample) (pid : ℕ) : ℚ :=
  ((points.filter fun p => p.pixId == pid).map CountSample.count).sum /
    ((points.filter fun p => p.pixId == pid).map fun p => sampleArea pi p.rad).sum

/-- Embedding of `StatAtlas.build_poisson_map_MAP`: start from
`np.zeros(NPIX)` and overwrite each non-empty pixel with its per-pixel
estimate. -/
def buildPoissonMapMAP (pi : ℚ) (npix : ℕ) (points : List CountSample) :
    List MapVal :=
  (nonEmptyPixIds npix points).foldl
    (fun arr pid => listSet arr pid (.val (pixelDensityMAP pi points pid)))
    (List.replicate npix (.val 0))

/-- Counterexample for C8: on a 12-pixel grid whose only sample sits in pixel
3, pixel 0 of the MAP-estimated density map is the defined value `0`, not the
undefined NaN the claim promises (and `build_poisson_map_MAP` accepts no
`zero` / `global-average` fallback argument at all). -/
theorem poisson_map_MAP_empty_pixel_counterexample :
    (buildPoissonMapMAP (355 / 113) 12 [⟨3, 5, 1⟩]).get? 0 = some (.val 0)
    ∧ MapVal.val 0 ≠ MapVal.nan := by
  constructor
  · rfl
  · decide

/-- Assignment at one index leaves the other indices unchanged. -/
theorem listSet_get?_ne (l : List MapVal) (i j : ℕ) (v : MapVal) (h : i ≠ j) :
    (listSet l i v).get? j = l.get? j := by
  induction l generalizing i j with
  | nil => rfl
  | cons x xs ih =>
    cases i with
    | zero =>
      cases j with
      | zero => exact absurd rfl h
      | succ j => rfl
    | succ i =>
      cases j with
      | zero => rfl
      | succ j => simpa [listSet] using ih i j (by omega)

/-- A fold of single-index assignments away from `pid` does not change entry
`pid`. -/
theorem get?_foldl_listSet (v : ℕ → MapVal) (pids : List ℕ)
    (arr : List MapVal) (pid : ℕ) (h : ∀ i ∈ pids, i ≠ pid) :
    ((pids.foldl (fun a i => listSet a i (v i)) arr).get? pid) = arr.get? pid := by
  induction pids generalizing arr with
  | nil => rfl
  | cons i rest ih =>
    rw [List.foldl_cons, ih _ fun j hj => h j (List.mem_cons_of_mem _ hj),
      listSet_get?_ne _ _ _ _ (h i (List.mem_cons_self _ _))]

/-- Membership after an assignment comes from the old array or is the new
value. -/
theorem mem_listSet (l : List MapVal) (i : ℕ) (v x : MapVal)
    (hx : x ∈ listSet l i v) : x ∈ l ∨ x = v := by
  induction l generalizing i with
  | nil => cases hx
  | cons y ys ih =>
    cases i with
    | zero =>
      rcases List.mem_cons.mp hx with rfl | hx
      · exact Or.inr rfl
      · exact Or.inl (List.mem_cons_of_mem _ hx)
    | succ i =>
      rcases List.mem_cons.mp hx with rfl | hx
      · exact Or.inl (List.mem_cons_self _ _)
      · rcases ih i hx with h | h
        · exact Or.inl (List.mem_cons_of_mem _ h)
        · exact Or.inr h

/-- Every cell of a fold of defined-value assignments over a defined-value
array is defined. -/
theorem foldl_listSet_no_nan (f : ℕ → ℚ) (pids : List ℕ) (arr : List MapVal)
    (harr : ∀ x ∈ arr, x ≠ MapVal.nan) :
    ∀ x ∈ pids.foldl (fun a i => listSet a i (.val (f i))) arr,
      x ≠ MapVal.nan := by
  induction pids generalizing arr with
  | nil => exact harr
  | cons i rest ih =>
    rw [List.foldl_cons]
    refine ih _ fun x hx => ?_
    rcases mem_listSet _ _ _ _ hx with h | rfl
    · exact harr x h
    · intro hcontra
      cases hcontra

/-- Claim C8 (amended): in the per-pixel (local-uniform / MAP) Poisson map,
every grid pixel to which no count samples are assigned keeps the defined
value `0` coming from the `np.zeros` initialisation — it is not left undefined
(NaN); indeed no cell of the produced map is NaN, and the method exposes no
`zero` / `global-average` fallback policy (its only recognised keyword is
`progress_bar`). -/
theorem poisson_map_MAP_empty_pixels_are_zero (pi : ℚ) (npix : ℕ)
    (points : List CountSample) (pid : ℕ) (hpid : pid < npix)
    (hempty : ∀ p ∈ points, p.pixId ≠ pid) :
    (buildPoissonMapMAP pi npix points).get? pid = some (.val 0)
    ∧ ∀ x ∈ buildPoissonMapMAP pi npix points, x ≠ MapVal.nan := by
  constructor
  · rw [buildPoissonMapMAP, get?_foldl_listSet]
    · rw [List.get?_eq_getElem?]
      simp [List.getElem?_replicate, hpid]
    · intro i hi
      rcases List.mem_filter.mp hi with ⟨_, hany⟩
      rcases List.any_eq_true.mp hany with ⟨p, hp, hpeq⟩
      have : p.pixId = i := by simpa using hpeq
      exact fun hip => hempty p hp (this.trans hip)
  · refine foldl_listSet_no_nan _ _ _ fun x hx => ?_
    have := List.eq_of_mem_replicate hx
    subst this
    intro hcontra
    cases hcontra

/-- Witness for C8 (amended): the concrete 12-pixel instance with one sample in
pixel 3; pixel 0 is a defined `0`. -/
theorem poisson_map_MAP_empty_pixels_are_zero_witness :
    (buildPoissonMapMAP (355 / 113) 12 [⟨3, 5, 1⟩]).get? 7 = some (.val 0)
    ∧ ∀ x ∈ buildPoissonMapMAP (355 / 113) 12 [⟨3, 5, 1⟩], x ≠ MapVal.nan :=
  poisson_map_MAP_empty_pixels_are_zero (355 / 113) 12 [⟨3, 5, 1⟩] 7
    (by decide) (by decide)

/-! ## The HEALPix grid round trip (MapAtlas.pixel_positions and Map.__call__)

`MapAtlas.pixel_positions` computes `hp.pix2ang(NSIDE, arange(NPIX))` and then
applies `_healpix_coordinates_to_spherical`, which maps the HEALPix
colatitude θ to the latitude `π/2 − θ` (and leaves the azimuth alone).
`Map.__call__` applies `_spherical_coordinates_to_healpix` — the same
function, a self-inverse — and calls `hp.ang2pix(nside, theta, phi)`, indexing
`self.data` by the result.  The colatitude/latitude conversion is pure
arithmetic in the constant `np.pi/2`, embedded below with that constant as a
parameter (the cancellation holds for every value of it).

`hp.pix2ang` / `hp.ang2pix` live in healpy, outside this repository.
`Modelled from the spec:` the spec's `SphericalGrid` leaf ("HEALPix-style
spherical grid: a fixed-resolution tessellation of the sphere into equal-area
pixels", "maps between a spherical coordinate pair and a discretized pixel
index ... pure function") is realised as the standard HEALPix RING-scheme
conversions.  They are embedded in the exact coordinates the C implementation
computes with internally: `z = cos θ` and `tt = φ/(π/2)`; the trigonometry of
the composed pipeline cancels exactly (`cos` of the colatitude recovered by
the two conversions is the z produced by `pix2ang`), so the round trip is the
identity `ang2pix (pix2zphi p) = p` in (z, tt) coordinates, with machine
floats idealised as exact rationals.  The square root in the polar-cap branch
of `ang2pix` is embedded by `ratSqrt`, which agrees with the real square root
on every rational that is a perfect square — in particular on the values
`3·(1−|z|) = (i/n)²` arising at pixel centres. -/

/-- Rational square root, exact on perfect squares (numerator and denominator
square roots taken with `Nat.sqrt`). -/
def ratSqrt (q : ℚ) : ℚ :=
  (Nat.sqrt q.num.toNat : ℚ) / (Nat.sqrt q.den : ℚ)

/-- `ratSqrt` inverts squaring of non-negative rationals. -/
theorem ratSqrt_mul_self (r : ℚ) (h : 0 ≤ r) : ratSqrt (r * r) = r := by
  have hnum : (r * r).num = r.num * r.num := Rat.mul_self_num r
  have hden : (r * r).den = r.den * r.den := Rat.mul_self_den r
  have hrnum : 0 ≤ r.num := Rat.num_nonneg.mpr h
  rw [ratSqrt, hnum, hden]
  have h1 : (r.num * r.num).toNat = r.num.toNat * r.num.toNat := by
    rcases Int.eq_ofNat_of_zero_le hrnum with ⟨m, hm⟩
    rw [hm, ← Int.natCast_mul, Int.toNat_natCast, Int.toNat_natCast]
  rw [h1, Nat.sqrt_eq, Nat.sqrt_eq]
  have h2 : ((r.num.toNat : ℕ) : ℚ) = (r.num : ℚ) := by
    rw [← Int.cast_natCast, Int.toNat_of_nonneg hrnum]
  rw [h2, Rat.num_div_den]

/-- Embedding of `_healpix_coordinates_to_spherical`: `(φ, θ) ↦ (φ, π/2 − θ)`,
with the constant `np.pi/2` as the parameter `halfPi`. -/
def healpixCoordinatesToSpherical (halfPi phi theta : ℚ) : ℚ × ℚ :=
  (phi, halfPi - theta)

/-- Embedding of `_spherical_coordinates_to_healpix`: the source defines it as
the same map ("this is a self-inverse transformation"). -/
def sphericalCoordinatesToHealpix (halfPi phi theta : ℚ) : ℚ × ℚ :=
  healpixCoordinatesToSpherical halfPi phi theta

/-- Modelled from the spec: `hp.pix2ang` (healpy, external) in the RING
scheme, in `(z = cos θ, tt = φ/(π/2))` coordinates.  North polar cap for
`p < 2n(n−1)`, equatorial belt up to `12n² − 2n(n−1)`, south polar cap
beyond. -/
def pix2zphiRing (n p : ℕ) : ℚ × ℚ :=
  if p < 2 * n * (n - 1) then
    let iring := (1 + Nat.sqrt (1 + 2 * p)) / 2
    let iphi := p + 1 - 2 * iring * (iring - 1)
    (1 - (iring : ℚ) ^ 2 / (3 * (n : ℚ) ^ 2), ((iphi : ℚ) - 1 / 2) / (iring : ℚ))
  else if p < 12 * n ^ 2 - 2 * n * (n - 1) then
    let ip := p - 2 * n * (n - 1)
    let tmp := ip / (4 * n)
    let iring := tmp + n
    let iphi := ip - 4 * n * tmp + 1
    let fodd : ℚ := if (iring + n) % 2 = 1 then 1 else 1 / 2
    ((2 * (n : ℚ) - (iring : ℚ)) * (2 / (3 * (n : ℚ))),
      ((iphi : ℚ) - fodd) / (n : ℚ))
  else
    let ip := 12 * n ^ 2 - p
    let iring := (1 + Nat.sqrt (2 * ip - 1)) / 2
    let iphi := 4 * iring + 1 - (ip - 2 * iring * (iring - 1))
    (-1 + (iring : ℚ) ^ 2 / (3 * (n : ℚ) ^ 2), ((iphi : ℚ) - 1 / 2) / (iring : ℚ))

/-- Modelled from the spec: `hp.ang2pix` (healpy, external) in the RING
scheme, in `(z, tt)` coordinates: equatorial branch for `|z| ≤ 2/3`, polar
caps otherwise. -/
def ang2pixRing (n : ℕ) (z tt : ℚ) : ℤ :=
  let za := |z|
  if za ≤ 2 / 3 then
    let temp1 : ℚ := n * (1 / 2 + tt)
    let temp2 : ℚ := n * z * (3 / 4)
    let jp := ⌊temp1 - temp2⌋
    let jm := ⌊temp1 + temp2⌋
    let ir := (n : ℤ) + 1 + jp - jm
    let kshift := 1 - ir % 2
    let ip := ((jp + jm - n + kshift + 1 + 8 * n) / 2) % (4 * n)
    2 * (n : ℤ) * ((n : ℤ) - 1) + (ir - 1) * (4 * n) + ip
  else
    let tp := tt - ⌊tt⌋
    let tmp : ℚ := n * ratSqrt (3 * (1 - za))
    let jp := ⌊tp * tmp⌋
    let jm := ⌊(1 - tp) * tmp⌋
    let ir := jp + jm + 1
    let ip := ⌊tt * (ir : ℚ)⌋ % (4 * ir)
    if 0 < z then 2 * ir * (ir - 1) + ip
    else 12 * (n : ℤ) ^ 2 - 2 * ir * (ir + 1) + ip

/-- Embedding of the tail of `Map.__call__`: index the map's data array with
the `ang2pix` result (in (z, tt) coordinates, after the conversion layer whose
exact cancellation is proved in the round-trip theorem). -/
def mapCallData (n : ℕ) (data : ℕ → ℚ) (z tt : ℚ) : ℚ :=
  data (ang2pixRing n z tt).toNat

/-- Floor of an integer plus a fractional part. -/
theorem floor_int_add (k : ℤ) (x : ℚ) (h0 : 0 ≤ x) (h1 : x < 1) :
    ⌊(k : ℚ) + x⌋ = k := by
  rw [Int.floor_eq_iff]
  exact ⟨by linarith, by linarith⟩

/-- Floor of a natural number plus a fractional part. -/
theorem floor_nat_add (k : ℕ) (x : ℚ) (h0 : 0 ≤ x) (h1 : x < 1) :
    ⌊(k : ℚ) + x⌋ = (k : ℤ) := by
  exact_mod_cast floor_int_add (k : ℤ) x h0 h1

/-- The polar-cap branch of `ang2pixRing`, evaluated at the exact cap pixel
centre data `tt = (j + 1/2)/i`, `|z| = 1 − i²/(3n²)` for a cap ring
`1 ≤ i < n` and in-ring index `j < 4i`: the branch test selects the cap, the
edge-line floors come out as `j mod i` and `i − j mod i − 1` (so the ring
counter is `i`), and the in-ring index floor recovers `j`. -/
theorem cap_branch_eval (n i j : ℕ) (h1 : 1 ≤ i) (hin : i < n) (hj : j < 4 * i) :
    ¬ (1 - (i : ℚ) ^ 2 / (3 * (n : ℚ) ^ 2) ≤ 2 / 3)
    ∧ ⌊(((j : ℚ) + 1 / 2) / (i : ℚ) - ⌊((j : ℚ) + 1 / 2) / (i : ℚ)⌋) *
        ((n : ℚ) * ratSqrt (3 * (1 - (1 - (i : ℚ) ^ 2 / (3 * (n : ℚ) ^ 2)))))⌋ =
      ((j % i : ℕ) : ℤ)
    ∧ ⌊(1 - (((j : ℚ) + 1 / 2) / (i : ℚ) - ⌊((j : ℚ) + 1 / 2) / (i : ℚ)⌋)) *
        ((n : ℚ) * ratSqrt (3 * (1 - (1 - (i : ℚ) ^ 2 / (3 * (n : ℚ) ^ 2)))))⌋ =
      (i : ℤ) - ((j % i : ℕ) : ℤ) - 1
    ∧ ⌊(((j : ℚ) + 1 / 2) / (i : ℚ)) * (i : ℚ)⌋ = (j : ℤ) := by
  have hn0 : (0 : ℚ) < n := by exact_mod_cast (by omega : 0 < n)
  have hi0 : (0 : ℚ) < i := by exact_mod_cast (by omega : 0 < i)
  have hsq : 3 * (1 - (1 - (i : ℚ) ^ 2 / (3 * (n : ℚ) ^ 2))) = ((i:ℚ)/n) * ((i:ℚ)/n) := by
    field_simp
    ring
  have hrs : ratSqrt (3 * (1 - (1 - (i : ℚ) ^ 2 / (3 * (n : ℚ) ^ 2)))) = (i:ℚ)/n := by
    rw [hsq, ratSqrt_mul_self ((i:ℚ)/(n:ℚ)) (by positivity)]
  have htmp : (n : ℚ) * ((i:ℚ)/n) = (i:ℚ) := by
    field_simp
  -- decomposition of j
  obtain ⟨q, r, hr, hqr⟩ : ∃ q r, r < i ∧ j = i * q + r :=
    ⟨j / i, j % i, Nat.mod_lt _ (by omega), (Nat.div_add_mod j i).symm⟩
  have hmod : j % i = r := by
    rw [hqr, Nat.mul_add_mod, Nat.mod_eq_of_lt hr]
  -- tt decomposition
  have htt : ((j : ℚ) + 1 / 2) / (i : ℚ) = (q : ℚ) + ((r : ℚ) + 1 / 2) / i := by
    rw [hqr]
    push_cast
    field_simp
    ring
  have hfrac0 : (0 : ℚ) ≤ ((r : ℚ) + 1 / 2) / i := by positivity
  have hfrac1 : ((r : ℚ) + 1 / 2) / i < 1 := by
    rw [div_lt_one hi0]
    have : (r : ℚ) + 1 ≤ i := by exact_mod_cast hr
    linarith
  have hfloor : ⌊((j : ℚ) + 1 / 2) / (i : ℚ)⌋ = (q : ℤ) := by
    rw [htt]
    exact floor_nat_add q _ hfrac0 hfrac1
  have htp : ((j : ℚ) + 1 / 2) / (i : ℚ) - ⌊((j : ℚ) + 1 / 2) / (i : ℚ)⌋ =
      ((r : ℚ) + 1 / 2) / i := by
    rw [hfloor, htt]
    push_cast
    ring
  refine ⟨?_, ?_, ?_, ?_⟩
  · -- branch test: 1 - i²/(3n²) > 2/3
    have hlt : (i : ℚ) ^ 2 < (n : ℚ) ^ 2 := by
      have : (i : ℚ) < n := by exact_mod_cast hin
      nlinarith
    have : (i : ℚ) ^ 2 / (3 * (n : ℚ) ^ 2) < 1 / 3 := by
      rw [div_lt_div_iff₀ (by positivity) (by norm_num)]
      nlinarith
    intro hcon
    linarith
  · rw [htp, hrs, htmp, hmod]
    have : ((r : ℚ) + 1 / 2) / i * i = (r : ℚ) + 1 / 2 := by
      field_simp
      ring
    rw [this]
    exact floor_nat_add r (1/2) (by norm_num) (by norm_num)
  · rw [htp, hrs, htmp]
    have heq : (1 - ((r : ℚ) + 1 / 2) / i) * i = ((i : ℚ) - r - 1) + 1 / 2 := by
      field_simp
      ring
    rw [heq]
    have hcast : ((i : ℚ) - r - 1) = (((i : ℤ) - r - 1 : ℤ) : ℚ) := by
      push_cast
      ring
    rw [hcast, floor_int_add ((i : ℤ) - r - 1) (1/2) (by norm_num) (by norm_num), hmod]
  · have heq : ((j : ℚ) + 1 / 2) / i * i = (j : ℚ) + 1 / 2 := by
      field_simp
      ring
    rw [heq]
    exact floor_nat_add j (1/2) (by norm_num) (by norm_num)


/-- Evaluation of the `ang2pixRing` polar branch at a north-cap pixel centre:
ring `i` and in-ring index `j` map back to the cap pixel number `2i(i-1)+j`. -/
theorem ang2pix_north (n i j : ℕ) (h1 : 1 ≤ i) (hin : i < n) (hj : j < 4 * i) :
    ang2pixRing n (1 - (i : ℚ) ^ 2 / (3 * (n : ℚ) ^ 2)) (((j : ℚ) + 1 / 2) / (i : ℚ)) =
      2 * (i : ℤ) * ((i : ℤ) - 1) + (j : ℤ) := by
  obtain ⟨hgt, hjp, hjm, hip⟩ := cap_branch_eval n i j h1 hin hj
  have hzpos : (0 : ℚ) < 1 - (i : ℚ) ^ 2 / (3 * (n : ℚ) ^ 2) := by
    have h23 : (2 : ℚ) / 3 < 1 - (i : ℚ) ^ 2 / (3 * (n : ℚ) ^ 2) := not_le.mp hgt
    linarith
  rw [ang2pixRing]
  rw [abs_of_pos hzpos]
  rw [if_neg hgt]
  simp only [hjp, hjm]
  have hir : ((j % i : ℕ) : ℤ) + ((i : ℤ) - ((j % i : ℕ) : ℤ) - 1) + 1 = (i : ℤ) := by
    omega
  rw [hir]
  simp only [Int.cast_natCast]
  rw [hip]
  rw [Int.emod_eq_of_lt (by positivity) (by exact_mod_cast hj)]
  rw [if_pos hzpos]

/-- Evaluation of the `ang2pixRing` polar branch at a south-cap pixel centre. -/
theorem ang2pix_south (n i j : ℕ) (h1 : 1 ≤ i) (hin : i < n) (hj : j < 4 * i) :
    ang2pixRing n (-1 + (i : ℚ) ^ 2 / (3 * (n : ℚ) ^ 2)) (((j : ℚ) + 1 / 2) / (i : ℚ)) =
      12 * (n : ℤ) ^ 2 - 2 * (i : ℤ) * ((i : ℤ) + 1) + (j : ℤ) := by
  obtain ⟨hgt, hjp, hjm, hip⟩ := cap_branch_eval n i j h1 hin hj
  have h23 : (2 : ℚ) / 3 < 1 - (i : ℚ) ^ 2 / (3 * (n : ℚ) ^ 2) := not_le.mp hgt
  have hzneg : -1 + (i : ℚ) ^ 2 / (3 * (n : ℚ) ^ 2) < 0 := by linarith
  rw [ang2pixRing]
  have habs : |(-1 + (i : ℚ) ^ 2 / (3 * (n : ℚ) ^ 2))| =
      1 - (i : ℚ) ^ 2 / (3 * (n : ℚ) ^ 2) := by
    rw [abs_of_neg hzneg]
    ring
  rw [habs, if_neg hgt]
  simp only [hjp, hjm]
  have hir : ((j % i : ℕ) : ℤ) + ((i : ℤ) - ((j % i : ℕ) : ℤ) - 1) + 1 = (i : ℤ) := by
    omega
  rw [hir]
  simp only [Int.cast_natCast]
  rw [hip]
  rw [Int.emod_eq_of_lt (by positivity) (by exact_mod_cast hj)]
  rw [if_neg (not_lt.mpr hzneg.le)]

/-- Evaluation of the `ang2pixRing` equatorial branch at an equatorial pixel
centre: equatorial ring offset `t` and in-ring index `j < 4n` map back to the
pixel number `ncap + 4nt + j` (both parities of `t`). -/
theorem ang2pix_equatorial (n t j : ℕ) (hn : 1 ≤ n) (ht : t ≤ 2 * n) (hj : j < 4 * n) :
    ang2pixRing n ((2 * (n : ℚ) - ((t + n : ℕ) : ℚ)) * (2 / (3 * (n : ℚ))))
        ((((j + 1 : ℕ) : ℚ) - (if (t + n + n) % 2 = 1 then (1 : ℚ) else 1 / 2)) / (n : ℚ)) =
      2 * (n : ℤ) * ((n : ℤ) - 1) + (t : ℤ) * (4 * (n : ℤ)) + (j : ℤ) := by
  have hn0 : (0 : ℚ) < n := by exact_mod_cast (by omega : 0 < n)
  have htq : (t : ℚ) ≤ 2 * n := by exact_mod_cast ht
  have hz' : (2 * (n : ℚ) - ((t + n : ℕ) : ℚ)) * (2 / (3 * (n : ℚ))) =
      ((n : ℚ) - t) * 2 / (3 * n) := by
    push_cast
    ring
  have habs : |(2 * (n : ℚ) - ((t + n : ℕ) : ℚ)) * (2 / (3 * (n : ℚ)))| ≤ 2 / 3 := by
    rw [hz', abs_div, abs_of_pos (show (0 : ℚ) < 3 * n by positivity),
      div_le_iff₀ (by positivity), abs_le]
    constructor
    · nlinarith
    · nlinarith
  rw [ang2pixRing, if_pos habs]
  rcases Nat.even_or_odd t with ⟨u, hu⟩ | ⟨u, hu⟩
  · -- t even: fodd = 1/2, ring counter odd, kshift = 0
    subst hu
    have hun : u ≤ n := by omega
    have hcv : (if (u + u + n + n) % 2 = 1 then (1 : ℚ) else 1 / 2) = 1 / 2 :=
      if_neg (by omega)
    simp only [hcv]
    have e1 : (n : ℚ) * (1 / 2 + (((j + 1 : ℕ) : ℚ) - 1 / 2) / n) -
        (n : ℚ) * ((2 * (n : ℚ) - ((u + u + n : ℕ) : ℚ)) * (2 / (3 * (n : ℚ)))) * (3 / 4) =
        ((j + u : ℕ) : ℚ) + 1 / 2 := by
      push_cast
      field_simp
      ring
    have e2 : (n : ℚ) * (1 / 2 + (((j + 1 : ℕ) : ℚ) - 1 / 2) / n) +
        (n : ℚ) * ((2 * (n : ℚ) - ((u + u + n : ℕ) : ℚ)) * (2 / (3 * (n : ℚ)))) * (3 / 4) =
        ((((j : ℤ) + n - u : ℤ)) : ℚ) + 1 / 2 := by
      push_cast
      field_simp
      ring
    have f1 : ⌊((j + u : ℕ) : ℚ) + 1 / 2⌋ = ((j + u : ℕ) : ℤ) :=
      floor_nat_add _ _ (by norm_num) (by norm_num)
    have f2 : ⌊((((j : ℤ) + n - u : ℤ)) : ℚ) + 1 / 2⌋ = (j : ℤ) + n - u :=
      floor_int_add _ _ (by norm_num) (by norm_num)
    simp only [e1, e2, f1, f2]
    have hir : (n : ℤ) + 1 + ((j + u : ℕ) : ℤ) - ((j : ℤ) + n - u) = 2 * u + 1 := by
      push_cast
      ring
    simp only [hir]
    have hip : (((j + u : ℕ) : ℤ) + ((j : ℤ) + n - u) - n + (1 - (2 * (u : ℤ) + 1) % 2) + 1 +
        8 * n) / 2 % (4 * (n : ℤ)) = (j : ℤ) := by
      have h1 : ((j + u : ℕ) : ℤ) = (j : ℤ) + u := by push_cast; ring
      rw [h1]
      have h2 : ((j : ℤ) + u) + ((j : ℤ) + n - u) - n + (1 - (2 * (u : ℤ) + 1) % 2) + 1 +
          8 * n = 2 * j + 1 + 8 * n := by omega
      rw [h2]
      have h3 : (2 * (j : ℤ) + 1 + 8 * n) / 2 = j + 4 * n := by omega
      rw [h3, show (j : ℤ) + 4 * n = j + 4 * n * 1 by ring, Int.add_mul_emod_self_left,
        Int.emod_eq_of_lt (by positivity) (by exact_mod_cast hj)]
    simp only [hip]
    push_cast
    ring
  · -- t odd: fodd = 1, ring counter even, kshift = 1
    subst hu
    have hun : u + 1 ≤ n := by omega
    have hcv : (if (2 * u + 1 + n + n) % 2 = 1 then (1 : ℚ) else 1 / 2) = 1 :=
      if_pos (by omega)
    simp only [hcv]
    have e1 : (n : ℚ) * (1 / 2 + (((j + 1 : ℕ) : ℚ) - 1) / n) -
        (n : ℚ) * ((2 * (n : ℚ) - ((2 * u + 1 + n : ℕ) : ℚ)) * (2 / (3 * (n : ℚ)))) * (3 / 4) =
        ((j + u : ℕ) : ℚ) + 1 / 2 := by
      push_cast
      field_simp
      ring
    have e2 : (n : ℚ) * (1 / 2 + (((j + 1 : ℕ) : ℚ) - 1) / n) +
        (n : ℚ) * ((2 * (n : ℚ) - ((2 * u + 1 + n : ℕ) : ℚ)) * (2 / (3 * (n : ℚ)))) * (3 / 4) =
        ((((j : ℤ) + n - u - 1 : ℤ)) : ℚ) + 1 / 2 := by
      push_cast
      field_simp
      ring
    have f1 : ⌊((j + u : ℕ) : ℚ) + 1 / 2⌋ = ((j + u : ℕ) : ℤ) :=
      floor_nat_add _ _ (by norm_num) (by norm_num)
    have f2 : ⌊((((j : ℤ) + n - u - 1 : ℤ)) : ℚ) + 1 / 2⌋ = (j : ℤ) + n - u - 1 :=
      floor_int_add _ _ (by norm_num) (by norm_num)
    simp only [e1, e2, f1, f2]
    have hir : (n : ℤ) + 1 + ((j + u : ℕ) : ℤ) - ((j : ℤ) + n - u - 1) = 2 * u + 2 := by
      push_cast
      ring
    simp only [hir]
    have hip : (((j + u : ℕ) : ℤ) + ((j : ℤ) + n - u - 1) - n + (1 - (2 * (u : ℤ) + 2) % 2) + 1 +
        8 * n) / 2 % (4 * (n : ℤ)) = (j : ℤ) := by
      have h1 : ((j + u : ℕ) : ℤ) = (j : ℤ) + u := by push_cast; ring
      rw [h1]
      have h2 : ((j : ℤ) + u) + ((j : ℤ) + n - u - 1) - n + (1 - (2 * (u : ℤ) + 2) % 2) + 1 +
          8 * n = 2 * j + 1 + 8 * n := by omega
      rw [h2]
      have h3 : (2 * (j : ℤ) + 1 + 8 * n) / 2 = j + 4 * n := by omega
      rw [h3, show (j : ℤ) + 4 * n = j + 4 * n * 1 by ring, Int.add_mul_emod_self_left,
        Int.emod_eq_of_lt (by positivity) (by exact_mod_cast hj)]
    simp only [hip]
    push_cast
    ring

/-- The integer-square-root ring recovery of `pix2zphiRing` on the north cap. -/
theorem north_ring_index (i j : ℕ) (h1 : 1 ≤ i) (hj : j < 4 * i) :
    (1 + Nat.sqrt (1 + 2 * (2 * i * (i - 1) + j))) / 2 = i := by
  obtain ⟨i', rfl⟩ : ∃ i', i = i' + 1 := ⟨i - 1, by omega⟩
  simp only [Nat.add_sub_cancel]
  have hlow : 2 * (i' + 1) - 1 ≤ Nat.sqrt (1 + 2 * (2 * (i' + 1) * i' + j)) := by
    rw [Nat.le_sqrt]
    zify [show 1 ≤ 2 * (i' + 1) by omega]
    nlinarith
  have hhigh : Nat.sqrt (1 + 2 * (2 * (i' + 1) * i' + j)) < 2 * (i' + 1) + 1 := by
    rw [Nat.sqrt_lt]
    nlinarith
  omega

/-- The integer-square-root ring recovery of `pix2zphiRing` on the south cap. -/
theorem south_ring_index (i j : ℕ) (h1 : 1 ≤ i) (hj : j < 4 * i) :
    (1 + Nat.sqrt (2 * (2 * i * (i + 1) - j) - 1)) / 2 = i := by
  obtain ⟨i', rfl⟩ : ∃ i', i = i' + 1 := ⟨i - 1, by omega⟩
  have h4i : 4 * (i' + 1) ≤ 2 * (i' + 1) * (i' + 1 + 1) := by nlinarith
  have hjle : j ≤ 2 * (i' + 1) * (i' + 1 + 1) := by omega
  have h1le : 1 ≤ 2 * (2 * (i' + 1) * (i' + 1 + 1) - j) := by omega
  have hlow : 2 * (i' + 1) - 1 ≤
      Nat.sqrt (2 * (2 * (i' + 1) * (i' + 1 + 1) - j) - 1) := by
    rw [Nat.le_sqrt]
    zify [show 1 ≤ 2 * (i' + 1) by omega, hjle, h1le]
    nlinarith
  have hhigh : Nat.sqrt (2 * (2 * (i' + 1) * (i' + 1 + 1) - j) - 1) <
      2 * (i' + 1) + 1 := by
    rw [Nat.sqrt_lt]
    zify [hjle, h1le]
    nlinarith
  omega

/-- Reduction of `pix2zphiRing` at a north-cap pixel to its centre data. -/
theorem pix2zphi_north (n i j : ℕ) (h1 : 1 ≤ i) (hin : i < n) (hj : j < 4 * i) :
    pix2zphiRing n (2 * i * (i - 1) + j) =
      (1 - (i : ℚ) ^ 2 / (3 * (n : ℚ) ^ 2), ((j : ℚ) + 1 / 2) / (i : ℚ)) := by
  have hbr : 2 * i * (i - 1) + j < 2 * n * (n - 1) := by
    obtain ⟨i', rfl⟩ : ∃ i', i = i' + 1 := ⟨i - 1, by omega⟩
    obtain ⟨m, rfl⟩ : ∃ m, n = m + 2 := ⟨n - 2, by omega⟩
    have h21 : m + 2 - 1 = m + 1 := rfl
    simp only [Nat.add_sub_cancel, h21]
    nlinarith
  rw [pix2zphiRing, if_pos hbr]
  simp only [north_ring_index i j h1 hj]
  have hiphi : 2 * i * (i - 1) + j + 1 - 2 * i * (i - 1) = j + 1 := by omega
  simp only [hiphi]
  rw [Prod.mk.injEq]
  refine ⟨rfl, ?_⟩
  push_cast
  ring_nf

/-- Round trip at every north-cap pixel. -/
theorem roundtrip_north (n i j : ℕ) (h1 : 1 ≤ i) (hin : i < n) (hj : j < 4 * i) :
    ang2pixRing n (pix2zphiRing n (2 * i * (i - 1) + j)).1
        (pix2zphiRing n (2 * i * (i - 1) + j)).2 =
      ((2 * i * (i - 1) + j : ℕ) : ℤ) := by
  rw [pix2zphi_north n i j h1 hin hj]
  rw [ang2pix_north n i j h1 hin hj]
  push_cast [Nat.cast_sub h1]
  ring

/-- Reduction of `pix2zphiRing` at a south-cap pixel to its centre data (the
pixel number is given by the subtraction-free relation `hpe`). -/
theorem pix2zphi_south (n i j p : ℕ) (h1 : 1 ≤ i) (hin : i < n) (hj : j < 4 * i)
    (hpe : p + 2 * i * (i + 1) = 12 * n ^ 2 + j) :
    pix2zphiRing n p =
      (-1 + (i : ℚ) ^ 2 / (3 * (n : ℚ) ^ 2), ((j : ℚ) + 1 / 2) / (i : ℚ)) := by
  have hmono : 2 * i * (i + 1) ≤ 2 * n * (n - 1) := by
    have h := Nat.mul_le_mul (show i ≤ n - 1 by omega) (show i + 1 ≤ n by omega)
    calc 2 * i * (i + 1) = 2 * (i * (i + 1)) := by ring
    _ ≤ 2 * ((n - 1) * n) := by omega
    _ = 2 * n * (n - 1) := by ring
  have hj4 : 4 * i ≤ 2 * i * (i + 1) := by nlinarith
  have hbig : 4 * n * (n - 1) ≤ 12 * n ^ 2 := by
    obtain ⟨m, rfl⟩ : ∃ m, n = m + 1 := ⟨n - 1, by omega⟩
    simp only [Nat.add_sub_cancel]
    nlinarith
  have hc1 : ¬ p < 2 * n * (n - 1) := by
    intro hcon
    have : p + 2 * i * (i + 1) < 4 * n * (n - 1) := by linarith
    linarith
  have hc2 : ¬ p < 12 * n ^ 2 - 2 * n * (n - 1) := by
    intro hcon
    have h2 : 2 * n * (n - 1) ≤ 12 * n ^ 2 := by linarith
    have h3 : p + 2 * n * (n - 1) < 12 * n ^ 2 := by omega
    linarith
  have hple : p ≤ 12 * n ^ 2 := by linarith
  have e : 12 * n ^ 2 - p + j = 2 * i * (i + 1) := by
    rw [← Nat.sub_add_comm hple, ← hpe, Nat.add_sub_cancel_left]
  have hipd : 12 * n ^ 2 - p = 2 * i * (i + 1) - j := Nat.eq_sub_of_add_eq e
  rw [pix2zphiRing, if_neg hc1, if_neg hc2]
  simp only [hipd]
  simp only [south_ring_index i j h1 hj]
  have einner : 2 * i * (i + 1) - j - 2 * i * (i - 1) = 4 * i - j := by
    obtain ⟨i', rfl⟩ : ∃ i', i = i' + 1 := ⟨i - 1, by omega⟩
    simp only [Nat.add_sub_cancel]
    zify [show j ≤ 2 * (i' + 1) * (i' + 1 + 1) by omega,
      show 2 * (i' + 1) * i' ≤ 2 * (i' + 1) * (i' + 1 + 1) - j by
        have : 2 * (i' + 1) * i' + 4 * (i' + 1) = 2 * (i' + 1) * (i' + 1 + 1) := by ring
        omega,
      show j ≤ 4 * (i' + 1) by omega]
    ring
  simp only [einner]
  have hiphi : 4 * i + 1 - (4 * i - j) = j + 1 := by omega
  simp only [hiphi]
  rw [Prod.mk.injEq]
  refine ⟨rfl, ?_⟩
  push_cast
  ring_nf

/-- Round trip at every south-cap pixel. -/
theorem roundtrip_south (n i j p : ℕ) (h1 : 1 ≤ i) (hin : i < n) (hj : j < 4 * i)
    (hpe : p + 2 * i * (i + 1) = 12 * n ^ 2 + j) :
    ang2pixRing n (pix2zphiRing n p).1 (pix2zphiRing n p).2 = (p : ℤ) := by
  rw [pix2zphi_south n i j p h1 hin hj hpe]
  rw [ang2pix_south n i j h1 hin hj]
  have hz := congrArg (fun m : ℕ => (m : ℤ)) hpe
  push_cast at hz
  linarith

/-- Reduction of `pix2zphiRing` at an equatorial pixel to its centre data. -/
theorem pix2zphi_equatorial (n t j : ℕ) (hn : 1 ≤ n) (ht : t ≤ 2 * n) (hj : j < 4 * n) :
    pix2zphiRing n (2 * n * (n - 1) + (4 * n * t + j)) =
      ((2 * (n : ℚ) - ((t + n : ℕ) : ℚ)) * (2 / (3 * (n : ℚ))),
        (((j + 1 : ℕ) : ℚ) - (if (t + n + n) % 2 = 1 then (1 : ℚ) else 1 / 2)) / (n : ℚ)) := by
  obtain ⟨m, rfl⟩ : ∃ m, n = m + 1 := ⟨n - 1, by omega⟩
  have hc1 : ¬ 2 * (m + 1) * (m + 1 - 1) + (4 * (m + 1) * t + j) <
      2 * (m + 1) * (m + 1 - 1) := by omega
  have hc2 : 2 * (m + 1) * (m + 1 - 1) + (4 * (m + 1) * t + j) <
      12 * (m + 1) ^ 2 - 2 * (m + 1) * (m + 1 - 1) := by
    simp only [Nat.add_sub_cancel]
    have h1 : 4 * (m + 1) * t ≤ 4 * (m + 1) * (2 * (m + 1)) :=
      Nat.mul_le_mul_left _ ht
    have h2 : 2 * (m + 1) * m + (4 * (m + 1) * (2 * (m + 1)) + 4 * (m + 1)) +
        2 * (m + 1) * m ≤ 12 * (m + 1) ^ 2 := by nlinarith
    omega
  rw [pix2zphiRing, if_neg hc1, if_pos hc2]
  simp only [Nat.add_sub_cancel_left]
  have hdiv : (4 * (m + 1) * t + j) / (4 * (m + 1)) = t := by
    rw [Nat.mul_add_div (by omega), Nat.div_eq_of_lt hj]
    omega
  simp only [hdiv]
  have hiphi : 4 * (m + 1) * t + j - 4 * (m + 1) * t + 1 = j + 1 := by omega
  simp only [hiphi]

/-- Round trip at every equatorial pixel. -/
theorem roundtrip_equatorial (n t j : ℕ) (hn : 1 ≤ n) (ht : t ≤ 2 * n) (hj : j < 4 * n) :
    ang2pixRing n (pix2zphiRing n (2 * n * (n - 1) + (4 * n * t + j))).1
        (pix2zphiRing n (2 * n * (n - 1) + (4 * n * t + j))).2 =
      ((2 * n * (n - 1) + (4 * n * t + j) : ℕ) : ℤ) := by
  rw [pix2zphi_equatorial n t j hn ht hj]
  rw [ang2pix_equatorial n t j hn ht hj]
  push_cast [Nat.cast_sub hn]
  ring

/-- Every pixel number below `ncap` is a north-cap pixel `2i(i-1)+j`. -/
theorem north_param (n p : ℕ) (hp : p < 2 * n * (n - 1)) :
    ∃ i j, 1 ≤ i ∧ i < n ∧ j < 4 * i ∧ p = 2 * i * (i - 1) + j := by
  have hs1 : Nat.sqrt (1 + 2 * p) * Nat.sqrt (1 + 2 * p) ≤ 1 + 2 * p :=
    Nat.sqrt_le _
  have hs2 : 1 + 2 * p < (Nat.sqrt (1 + 2 * p) + 1) * (Nat.sqrt (1 + 2 * p) + 1) :=
    Nat.lt_succ_sqrt _
  have hpn : 2 * n * (n - 1) = 2 * (n * (n - 1)) := by ring
  rcases Nat.even_or_odd (Nat.sqrt (1 + 2 * p)) with ⟨a, ha⟩ | ⟨a, ha⟩
  · rw [ha] at hs1 hs2
    have key1 : 4 * (a * a) ≤ 1 + 2 * p := by nlinarith
    have key2 : 1 + 2 * p < 4 * (a * a) + 4 * a + 1 := by nlinarith
    have ha1 : 1 ≤ a := by
      rcases Nat.eq_zero_or_pos a with rfl | h
      · omega
      · exact h
    have hprod : 2 * a * (a - 1) + 2 * a = 2 * (a * a) := by
      obtain ⟨a', rfl⟩ : ∃ a', a = a' + 1 := ⟨a - 1, by omega⟩
      simp only [Nat.add_sub_cancel]
      ring
    have hin : a < n := by
      by_contra hcon
      push_neg at hcon
      have h1 : n * (n - 1) ≤ a * a := Nat.mul_le_mul (by omega) (by omega)
      omega
    exact ⟨a, p - 2 * a * (a - 1), ha1, hin, by omega, by omega⟩
  · rw [ha] at hs1 hs2
    have key1 : 4 * (a * a) + 4 * a + 1 ≤ 1 + 2 * p := by nlinarith
    have key2 : 1 + 2 * p < 4 * (a * a) + 8 * a + 4 := by nlinarith
    have hprod : 2 * (a + 1) * (a + 1 - 1) = 2 * (a * a) + 2 * a := by
      simp only [Nat.add_sub_cancel]
      ring
    have hin : a + 1 < n := by
      by_contra hcon
      push_neg at hcon
      have h1 : n * (n - 1) ≤ (a + 1) * a := Nat.mul_le_mul (by omega) (by omega)
      have h3 : (a + 1) * a = a * a + a := by ring
      omega
    exact ⟨a + 1, p - 2 * (a + 1) * (a + 1 - 1), by omega, hin, by omega, by omega⟩

/-- Every pixel number at or above `npix - ncap` is a south-cap pixel. -/
theorem south_param (n p : ℕ) (hn : 0 < n) (hp1 : ¬ p < 12 * n ^ 2 - 2 * n * (n - 1))
    (hp2 : p < 12 * n ^ 2) :
    ∃ i j, 1 ≤ i ∧ i < n ∧ j < 4 * i ∧ p + 2 * i * (i + 1) = 12 * n ^ 2 + j := by
  have hb : 2 * n * (n - 1) ≤ 12 * n ^ 2 := by
    have h1 : n * (n - 1) ≤ n * n := Nat.mul_le_mul_left n (by omega)
    have h2 : n ^ 2 = n * n := pow_two n
    have h3 : 2 * n * (n - 1) = 2 * (n * (n - 1)) := by ring
    omega
  obtain ⟨v, hsum⟩ : ∃ v, p + (v + 1) = 12 * n ^ 2 := ⟨12 * n ^ 2 - p - 1, by omega⟩
  have hipub : v + 1 ≤ 2 * n * (n - 1) := by omega
  have hs1 : Nat.sqrt (2 * v + 1) * Nat.sqrt (2 * v + 1) ≤ 2 * v + 1 := Nat.sqrt_le _
  have hs2 : 2 * v + 1 < (Nat.sqrt (2 * v + 1) + 1) * (Nat.sqrt (2 * v + 1) + 1) :=
    Nat.lt_succ_sqrt _
  have hpn : 2 * n * (n - 1) = 2 * (n * (n - 1)) := by ring
  rcases Nat.even_or_odd (Nat.sqrt (2 * v + 1)) with ⟨a, ha⟩ | ⟨a, ha⟩
  · rw [ha] at hs1 hs2
    have key1 : 4 * (a * a) ≤ 2 * v + 1 := by nlinarith
    have key2 : 2 * v + 1 < 4 * (a * a) + 4 * a + 1 := by nlinarith
    have ha1 : 1 ≤ a := by
      rcases Nat.eq_zero_or_pos a with rfl | h
      · omega
      · exact h
    have h4 : 2 * a * (a + 1) = 2 * (a * a) + 2 * a := by ring
    have hin : a < n := by
      by_contra hcon
      push_neg at hcon
      have h1 : n * (n - 1) ≤ a * a := Nat.mul_le_mul (by omega) (by omega)
      omega
    exact ⟨a, 2 * a * (a + 1) - (v + 1), ha1, hin, by omega, by omega⟩
  · rw [ha] at hs1 hs2
    have key1 : 4 * (a * a) + 4 * a + 1 ≤ 2 * v + 1 := by nlinarith
    have key2 : 2 * v + 1 < 4 * (a * a) + 8 * a + 4 := by nlinarith
    have h4 : 2 * (a + 1) * (a + 1 + 1) = 2 * (a * a) + 6 * a + 4 := by ring
    have hin : a + 1 < n := by
      by_contra hcon
      push_neg at hcon
      have h1 : n * (n - 1) ≤ (a + 1) * a := Nat.mul_le_mul (by omega) (by omega)
      have h3 : (a + 1) * a = a * a + a := by ring
      omega
    exact ⟨a + 1, 2 * (a + 1) * (a + 1 + 1) - (v + 1), by omega, hin, by omega, by omega⟩

/-- The HEALPix RING round trip: for every resolution `n` with `0 < n` and
every pixel `p < 12n^2`, `ang2pix` applied to the `pix2ang` centre data
returns `p`. -/
theorem ang2pix_pix2zphi_roundtrip (n p : ℕ) (hn : 0 < n) (hp : p < 12 * n ^ 2) :
    ang2pixRing n (pix2zphiRing n p).1 (pix2zphiRing n p).2 = (p : ℤ) := by
  by_cases h1 : p < 2 * n * (n - 1)
  · obtain ⟨i, j, hi1, hin, hj, rfl⟩ := north_param n p h1
    exact roundtrip_north n i j hi1 hin hj
  · by_cases h2 : p < 12 * n ^ 2 - 2 * n * (n - 1)
    · have hle : 2 * n * (n - 1) ≤ p := Nat.not_lt.mp h1
      have hb : 2 * n * (n - 1) ≤ 12 * n ^ 2 := by
        have ha1 : n * (n - 1) ≤ n * n := Nat.mul_le_mul_left n (by omega)
        have ha2 : n ^ 2 = n * n := pow_two n
        have ha3 : 2 * n * (n - 1) = 2 * (n * (n - 1)) := by ring
        omega
      have hmod := Nat.div_add_mod (p - 2 * n * (n - 1)) (4 * n)
      have hdecomp : p = 2 * n * (n - 1) +
          (4 * n * ((p - 2 * n * (n - 1)) / (4 * n)) + (p - 2 * n * (n - 1)) % (4 * n)) := by
        omega
      have hjm : (p - 2 * n * (n - 1)) % (4 * n) < 4 * n := Nat.mod_lt _ (by omega)
      have ht : (p - 2 * n * (n - 1)) / (4 * n) ≤ 2 * n := by
        apply Nat.le_of_lt_succ
        rw [Nat.div_lt_iff_lt_mul (by omega : 0 < 4 * n)]
        show p - 2 * n * (n - 1) < (2 * n + 1) * (4 * n)
        have ha2 : n ^ 2 = n * n := pow_two n
        have ha3 : 2 * n * (n - 1) = 2 * (n * (n - 1)) := by ring
        have ha4 : (2 * n + 1) * (4 * n) = 8 * (n * n) + 4 * n := by ring
        have ha5 : n * (n - 1) + n = n * n := by
          obtain ⟨m, rfl⟩ : ∃ m, n = m + 1 := ⟨n - 1, by omega⟩
          simp only [Nat.add_sub_cancel]
          ring
        omega
      rw [hdecomp]
      exact roundtrip_equatorial n _ _ (by omega) ht hjm
    · obtain ⟨i, j, hi1, hin, hj, hpe⟩ := south_param n p hn h2 hp
      exact roundtrip_south n i j p hi1 hin hj hpe

/-- Claim C9: for every pixel index `p` of an atlas grid with `nside = n`
(`pixel_count = 12n^2`, `0 < n`), evaluating a map of that atlas at the sky
position of pixel `p` round-trips to `p`, i.e. returns `data[p]`.  The first
conjunct is the exact cancellation of the colatitude/latitude conversion pair
(`_spherical_coordinates_to_healpix` composed with
`_healpix_coordinates_to_spherical` is the identity, for every value of the
`np.pi/2` constant), which is how `Map.__call__` recovers the HEALPix
colatitude produced by `MapAtlas.pixel_positions`; the second conjunct is the
remaining composition in the exact `(cos colat, azimuth/(pi/2))` coordinates:
`ang2pix` after `pix2ang` is the identity on pixel indices, so the map lookup
returns `data p`. -/
theorem map_at_pixel_position_roundtrip (halfPi phi theta : ℚ) (n p : ℕ)
    (data : ℕ → ℚ) (hn : 0 < n) (hp : p < 12 * n ^ 2) :
    sphericalCoordinatesToHealpix halfPi
        (healpixCoordinatesToSpherical halfPi phi theta).1
        (healpixCoordinatesToSpherical halfPi phi theta).2 = (phi, theta)
    ∧ mapCallData n data (pix2zphiRing n p).1 (pix2zphiRing n p).2 = data p := by
  constructor
  · unfold sphericalCoordinatesToHealpix healpixCoordinatesToSpherical
    rw [Prod.mk.injEq]
    exact ⟨rfl, by ring⟩
  · unfold mapCallData
    rw [ang2pix_pix2zphi_roundtrip n p hn hp, Int.toNat_natCast]

/-- Witness for C9: the concrete instance `nside = 2`, pixel 17, an identity
data array, and a rational stand-in for the `np.pi/2` constant. -/
theorem map_at_pixel_position_roundtrip_witness :
    sphericalCoordinatesToHealpix (355 / 226)
        (healpixCoordinatesToSpherical (355 / 226) 1 2).1
        (healpixCoordinatesToSpherical (355 / 226) 1 2).2 = (1, 2)
    ∧ mapCallData 2 (fun k => (k : ℚ)) (pix2zphiRing 2 17).1 (pix2zphiRing 2 17).2 =
      (fun k => (k : ℚ)) 17 :=
  map_at_pixel_position_roundtrip (355 / 226) 1 2 2 17 (fun k => (k : ℚ))
    (by decide) (by decide)

end PyXMIP
